import Mathlib

/-!
Verification of the local-MCP bridge orchestrator (Node.js/Express source:
src/server/index.js, the orchestration runtime module, and the policy
modules).

The JavaScript code is shallowly embedded: strings become lists of
characters, JSON values become the mutual inductive family JsonVal /
JsonArr / JsonObj (mutual rather than nested so that every recursive
definition is structural and hence kernel-computable), JS objects become
insertion-ordered field lists with JS assignment semantics, and the
fallible external boundaries (HTTP, the LLM client, JSON.parse of wire
text) become explicit parameters.  Every definition below is translated
from a concrete function of the source; the source location is given in
its doc comment.
-/

/-- JS strings are modelled as lists of characters. -/
abbrev Str := List Char


/-! ### String constants of the source (named so that proofs can treat
them as opaque keys) -/

/-- The key paths. -/
def sPaths : Str := "paths".toList
/-- The key path. -/
def sPath : Str := "path".toList
/-- The key path_list. -/
def sPathList : Str := "path_list".toList
/-- The key output_path. -/
def sOutputPath : Str := "output_path".toList
/-- The default output file name. -/
def sOutputMd : Str := "output.md".toList
/-- The key inputSchema. -/
def sInputSchema : Str := "inputSchema".toList
/-- The key properties. -/
def sProperties : Str := "properties".toList
/-- The key required. -/
def sRequired : Str := "required".toList
/-- The key type. -/
def sType : Str := "type".toList
/-- The schema type name array. -/
def sArray : Str := "array".toList
/-- The schema type name string. -/
def sString : Str := "string".toList
/-- The key name. -/
def sName : Str := "name".toList
/-- The key id. -/
def sId : Str := "id".toList
/-- The key tool. -/
def sTool : Str := "tool".toList
/-- The key toolArguments. -/
def sToolArguments : Str := "toolArguments".toList
/-- The key when. -/
def sWhen : Str := "when".toList
/-- The key stepId. -/
def sStepId : Str := "stepId".toList
/-- The key field. -/
def sField : Str := "field".toList
/-- The key equals. -/
def sEquals : Str := "equals".toList
/-- The key steps. -/
def sSteps : Str := "steps".toList
/-- The key schema. -/
def sSchema : Str := "schema".toList
/-- The key mode. -/
def sMode : Str := "mode".toList
/-- The key score. -/
def sScore : Str := "score".toList
/-- The key pass. -/
def sPass : Str := "pass".toList
/-- The key feedback. -/
def sFeedback : Str := "feedback".toList
/-- The key is_clean. -/
def sIsClean : Str := "is_clean".toList
/-- The key ready_for_pr. -/
def sReadyForPr : Str := "ready_for_pr".toList
/-- The key ready_for_pull. -/
def sReadyForPull : Str := "ready_for_pull".toList
/-- The when type sync_field_equals. -/
def sSyncFieldEquals : Str := "sync_field_equals".toList
/-- The when type step_executed. -/
def sStepExecuted : Str := "step_executed".toList
/-- The workflow type github_pr. -/
def sGithubPr : Str := "github_pr".toList
/-- The id fragment create_pr. -/
def sCreatePr : Str := "create_pr".toList
/-- The missing sentinel workspace_state. -/
def sWorkspaceState : Str := "workspace_state".toList
/-- The default workflow type name. -/
def sWorkflow : Str := "workflow".toList
/-- The step id pull_if_needed. -/
def sPullIfNeeded : Str := "pull_if_needed".toList
/-- The step id sync_refresh_after_pull. -/
def sSyncRefreshAfterPull : Str := "sync_refresh_after_pull".toList
/-- The step id create_pr_if_ready. -/
def sCreatePrIfReady : Str := "create_pr_if_ready".toList
/-- The workflow mode sequential. -/
def sSequential : Str := "sequential".toList
/-- The workflow schema tag workflow.steps.v1. -/
def sWorkflowStepsV1 : Str := "workflow.steps.v1".toList
/-- The candidate key query. -/
def sQuery : Str := "query".toList
/-- The candidate key input. -/
def sInput : Str := "input".toList
/-- The candidate key text. -/
def sText : Str := "text".toList
/-- The candidate key prompt. -/
def sPrompt : Str := "prompt".toList
/-- The candidate key q. -/
def sQ : Str := "q".toList
/-- The candidate key question. -/
def sQuestion : Str := "question".toList
/-- The candidate key content. -/
def sContent : Str := "content".toList
/-- The key expected_paths. -/
def sExpectedPaths : Str := "expected_paths".toList
/-- The bare directory hint. -/
def sDot : Str := ".".toList
/-- The default step id stem. -/
def sStepUnder : Str := "step_".toList
/-- The blank line of the github_pr answer template. -/
def sTwoNewlines : Str := "\n\n".toList

/-- JS whitespace as used by String.prototype.trim and the regex class \s:
the ASCII whitespace characters, NBSP, BOM and the Unicode line/paragraph
separators (the common cases; exotic Zs spaces do not occur in the repo). -/
def jsIsWs (c : Char) : Bool :=
  c = ' ' || c = '\t' || c = '\n' || c = '\r' ||
  c = Char.ofNat 11 || c = Char.ofNat 12 || c = Char.ofNat 160 ||
  c = Char.ofNat 0xfeff || c = Char.ofNat 0x2028 || c = Char.ofNat 0x2029

/-- Strip leading JS whitespace. -/
def jsTrimStart (s : Str) : Str := s.dropWhile jsIsWs

/-- Strip trailing JS whitespace. -/
def jsTrimEnd (s : Str) : Str := (s.reverse.dropWhile jsIsWs).reverse

/-- JS String.prototype.trim. -/
def jsTrim (s : Str) : Str := jsTrimEnd (jsTrimStart s)

/-- Insertion-ordered deduplication, keeping the first occurrence of every
element (helper carrying the set of elements already emitted). -/
def dedupeAux {α : Type} [DecidableEq α] (seen : List α) : List α → List α
  | [] => []
  | x :: xs => if x ∈ seen then dedupeAux seen xs else x :: dedupeAux (x :: seen) xs

/-- The JS idiom [...new Set(xs)]. -/
def dedupe {α : Type} [DecidableEq α] (l : List α) : List α := dedupeAux [] l

mutual
/-- JSON-shaped JS values.  JS numbers are modelled as integers — no claim
of this development depends on fractional or IEEE behaviour.  An object is
an insertion-ordered field sequence; a JS object cannot carry a key twice,
and lookup takes the first occurrence. -/
inductive JsonVal where
  | str (s : Str)
  | num (n : Int)
  | bool (b : Bool)
  | null
  | arr (xs : JsonArr)
  | obj (fs : JsonObj)
/-- Element sequence of a JSON array (mutual with JsonVal). -/
inductive JsonArr where
  | nil
  | cons (hd : JsonVal) (tl : JsonArr)
/-- Field sequence of a JSON object (mutual with JsonVal). -/
inductive JsonObj where
  | nil
  | cons (k : Str) (v : JsonVal) (tl : JsonObj)
end

mutual
/-- Decidable equality for JsonVal, written by hand because deriving does
not handle the mutual family. -/
def jvDecEq : (a b : JsonVal) → Decidable (a = b)
  | .str a, .str b =>
      match decEq a b with
      | isTrue h => isTrue (by rw [h])
      | isFalse h => isFalse (fun he => h (by cases he; rfl))
  | .num a, .num b =>
      match decEq a b with
      | isTrue h => isTrue (by rw [h])
      | isFalse h => isFalse (fun he => h (by cases he; rfl))
  | .bool a, .bool b =>
      match decEq a b with
      | isTrue h => isTrue (by rw [h])
      | isFalse h => isFalse (fun he => h (by cases he; rfl))
  | .null, .null => isTrue rfl
  | .arr a, .arr b =>
      match jaDecEq a b with
      | isTrue h => isTrue (by rw [h])
      | isFalse h => isFalse (fun he => h (by cases he; rfl))
  | .obj a, .obj b =>
      match joDecEq a b with
      | isTrue h => isTrue (by rw [h])
      | isFalse h => isFalse (fun he => h (by cases he; rfl))
  | .str _, .num _ => isFalse (fun h => nomatch h)
  | .str _, .bool _ => isFalse (fun h => nomatch h)
  | .str _, .null => isFalse (fun h => nomatch h)
  | .str _, .arr _ => isFalse (fun h => nomatch h)
  | .str _, .obj _ => isFalse (fun h => nomatch h)
  | .num _, .str _ => isFalse (fun h => nomatch h)
  | .num _, .bool _ => isFalse (fun h => nomatch h)
  | .num _, .null => isFalse (fun h => nomatch h)
  | .num _, .arr _ => isFalse (fun h => nomatch h)
  | .num _, .obj _ => isFalse (fun h => nomatch h)
  | .bool _, .str _ => isFalse (fun h => nomatch h)
  | .bool _, .num _ => isFalse (fun h => nomatch h)
  | .bool _, .null => isFalse (fun h => nomatch h)
  | .bool _, .arr _ => isFalse (fun h => nomatch h)
  | .bool _, .obj _ => isFalse (fun h => nomatch h)
  | .null, .str _ => isFalse (fun h => nomatch h)
  | .null, .num _ => isFalse (fun h => nomatch h)
  | .null, .bool _ => isFalse (fun h => nomatch h)
  | .null, .arr _ => isFalse (fun h => nomatch h)
  | .null, .obj _ => isFalse (fun h => nomatch h)
  | .arr _, .str _ => isFalse (fun h => nomatch h)
  | .arr _, .num _ => isFalse (fun h => nomatch h)
  | .arr _, .bool _ => isFalse (fun h => nomatch h)
  | .arr _, .null => isFalse (fun h => nomatch h)
  | .arr _, .obj _ => isFalse (fun h => nomatch h)
  | .obj _, .str _ => isFalse (fun h => nomatch h)
  | .obj _, .num _ => isFalse (fun h => nomatch h)
  | .obj _, .bool _ => isFalse (fun h => nomatch h)
  | .obj _, .null => isFalse (fun h => nomatch h)
  | .obj _, .arr _ => isFalse (fun h => nomatch h)
/-- Decidable equality for JsonArr. -/
def jaDecEq : (a b : JsonArr) → Decidable (a = b)
  | .nil, .nil => isTrue rfl
  | .nil, .cons _ _ => isFalse (fun h => nomatch h)
  | .cons _ _, .nil => isFalse (fun h => nomatch h)
  | .cons x xs, .cons y ys =>
      match jvDecEq x y with
      | isFalse h => isFalse (fun he => h (by cases he; rfl))
      | isTrue h1 =>
          match jaDecEq xs ys with
          | isTrue h2 => isTrue (by rw [h1, h2])
          | isFalse h => isFalse (fun he => h (by cases he; rfl))
/-- Decidable equality for JsonObj. -/
def joDecEq : (a b : JsonObj) → Decidable (a = b)
  | .nil, .nil => isTrue rfl
  | .nil, .cons _ _ _ => isFalse (fun h => nomatch h)
  | .cons _ _ _, .nil => isFalse (fun h => nomatch h)
  | .cons k v tl, .cons k2 v2 tl2 =>
      match decEq k k2 with
      | isFalse h => isFalse (fun he => h (by cases he; rfl))
      | isTrue h0 =>
          match jvDecEq v v2 with
          | isFalse h => isFalse (fun he => h (by cases he; rfl))
          | isTrue h1 =>
              match joDecEq tl tl2 with
              | isTrue h2 => isTrue (by rw [h0, h1, h2])
              | isFalse h => isFalse (fun he => h (by cases he; rfl))
end

instance : DecidableEq JsonVal := jvDecEq

instance : DecidableEq JsonArr := jaDecEq

instance : DecidableEq JsonObj := joDecEq

/-- View a JsonArr as a list. -/
def JsonArr.toList : JsonArr → List JsonVal
  | .nil => []
  | .cons x xs => x :: JsonArr.toList xs

/-- Build a JsonArr from a list. -/
def JsonArr.ofList : List JsonVal → JsonArr
  | [] => .nil
  | x :: xs => .cons x (JsonArr.ofList xs)

/-- View a JsonObj as a field list. -/
def JsonObj.toFields : JsonObj → List (Str × JsonVal)
  | .nil => []
  | .cons k v tl => (k, v) :: JsonObj.toFields tl

/-- Build a JsonObj from a field list. -/
def JsonObj.ofFields : List (Str × JsonVal) → JsonObj
  | [] => .nil
  | (k, v) :: tl => .cons k v (JsonObj.ofFields tl)

/-- Array value from a list of elements. -/
def jArr (l : List JsonVal) : JsonVal := .arr (JsonArr.ofList l)

/-- Object value from a field list. -/
def jObj (l : List (Str × JsonVal)) : JsonVal := .obj (JsonObj.ofFields l)

theorem JsonArr.toList_ofList (l : List JsonVal) : (JsonArr.ofList l).toList = l := by
  induction l with
  | nil => rfl
  | cons x xs ih => simp [JsonArr.ofList, JsonArr.toList, ih]

theorem JsonObj.toFields_ofFields (l : List (Str × JsonVal)) :
    (JsonObj.ofFields l).toFields = l := by
  induction l with
  | nil => rfl
  | cons x xs ih =>
    obtain ⟨k, v⟩ := x
    simp [JsonObj.ofFields, JsonObj.toFields, ih]

/-- A possibly-undefined JS value (undefined is not a JSON value). -/
abbrev JSVal := Option JsonVal

/-- JS truthiness of a defined value. -/
def truthy : JsonVal → Bool
  | .str s => s ≠ []
  | .num n => n ≠ 0
  | .bool b => b
  | .null => false
  | .arr _ => true
  | .obj _ => true

/-- JS truthiness, undefined being falsy. -/
def jsvTruthy : JSVal → Bool
  | none => false
  | some v => truthy v

/-- The JS expression a || b for a defined fallback. -/
def jsOrV (a : JSVal) (b : JsonVal) : JsonVal :=
  match a with
  | some v => if truthy v then v else b
  | none => b

/-- The JS chain a1 || a2 || ... || an: first truthy value, else the last. -/
def jsOrChain : List JSVal → JSVal
  | [] => none
  | [a] => a
  | a :: rest => if jsvTruthy a then a else jsOrChain rest

/-- typeof v === 'string'. -/
def isStr : JsonVal → Bool
  | .str _ => true
  | _ => false

/-- Array.isArray. -/
def isArr : JsonVal → Bool
  | .arr _ => true
  | _ => false

/-- Does typeof return 'object' for a truthy value, i.e. a non-null object
or array? -/
def isObjLike : JsonVal → Bool
  | .obj _ => true
  | .arr _ => true
  | _ => false

/-- First-occurrence lookup in an object field list. -/
def objGet (fields : List (Str × JsonVal)) (k : Str) : JSVal :=
  match fields with
  | [] => none
  | (k1, v) :: rest => if k1 = k then some v else objGet rest k

/-- JS hasOwnProperty on a field list. -/
def objHas (fields : List (Str × JsonVal)) (k : Str) : Bool :=
  match fields with
  | [] => false
  | (k1, _) :: rest => if k1 = k then true else objHas rest k

/-- JS property assignment obj[k] = v: overwrites in place when the key
exists, appends otherwise. -/
def objSet (fields : List (Str × JsonVal)) (k : Str) (v : JsonVal) :
    List (Str × JsonVal) :=
  if objHas fields k then
    fields.map (fun p => if p.1 = k then (k, v) else p)
  else
    fields ++ [(k, v)]

/-- Property access v.k: undefined unless v is an object carrying k.
(The source only reads named properties from parsed-JSON values, where
non-object values have no such properties.) -/
def getField (v : JsonVal) (k : Str) : JSVal :=
  match v with
  | .obj fs => objGet fs.toFields k
  | _ => none

/-- Optional-chaining access v?.k. -/
def getFieldOpt (v : JSVal) (k : Str) : JSVal :=
  match v with
  | some x => getField x k
  | none => none

/-- JS strict equality (===) as used by the source: structural on
primitives; two composite values of distinct provenance (the only
comparisons the source performs) are never reference-equal. -/
def strictEqPrim : JsonVal → JsonVal → Bool
  | .str a, .str b => a = b
  | .num a, .num b => a = b
  | .bool a, .bool b => a = b
  | .null, .null => true
  | _, _ => false

/-- JS strict equality lifted to possibly-undefined operands:
undefined === undefined is true. -/
def strictEqJV : JSVal → JSVal → Bool
  | none, none => true
  | some a, some b => strictEqPrim a b
  | _, _ => false

/-- Array.prototype.includes via ===, for a primitive probe. -/
def jsIncludes (xs : List JsonVal) (v : JsonVal) : Bool :=
  xs.any (fun x => strictEqPrim x v)

/-- String membership in a list of strings. -/
def inclStr (keys : List Str) (s : Str) : Bool :=
  keys.any (fun k => k = s)

/-- Decimal rendering of a JS number (integral, see JsonVal). -/
def numToStr (n : Int) : Str := (toString n).toList

mutual
/-- JS String(v) stringification: Array.prototype.toString joins element
renderings with commas, rendering null elements as the empty string;
objects stringify to "[object Object]". -/
def jsToString : JsonVal → Str
  | .str s => s
  | .num n => numToStr n
  | .bool b => if b then "true".toList else "false".toList
  | .null => "null".toList
  | .arr xs => List.intercalate (",".toList) (jsToStringArr xs)
  | .obj _ => "[object Object]".toList
/-- Element renderings for JS Array.prototype.toString. -/
def jsToStringArr : JsonArr → List Str
  | .nil => []
  | .cons v tl =>
      (match v with
        | .null => []
        | x => jsToString x) :: jsToStringArr tl
end

mutual
/-- JSON.stringify of a defined value. -/
def jsonStringify : JsonVal → Str
  | .str s => "\"".toList ++ s ++ "\"".toList
  | .num n => numToStr n
  | .bool b => if b then "true".toList else "false".toList
  | .null => "null".toList
  | .arr xs => "[".toList ++ List.intercalate (",".toList) (jsonStringifyArr xs) ++ "]".toList
  | .obj fs =>
      "\x7b".toList ++ List.intercalate (",".toList) (jsonStringifyObj fs) ++ "\x7d".toList
/-- JSON.stringify renderings of array elements. -/
def jsonStringifyArr : JsonArr → List Str
  | .nil => []
  | .cons v tl => jsonStringify v :: jsonStringifyArr tl
/-- JSON.stringify renderings of object fields. -/
def jsonStringifyObj : JsonObj → List Str
  | .nil => []
  | .cons k v tl =>
      ("\"".toList ++ k ++ "\":".toList ++ jsonStringify v) :: jsonStringifyObj tl
end

/-- Template interpolation of JSON.stringify(v) where v may be undefined
(a template literal renders undefined as the text "undefined"). -/
def jsonStringifyT : JSVal → Str
  | none => "undefined".toList
  | some v => jsonStringify v

/-- Object.entries / spread semantics: an object yields its fields, an
array or a string yields index-keyed entries, primitives yield nothing. -/
def spreadFields : JsonVal → List (Str × JsonVal)
  | .obj fs => fs.toFields
  | .arr xs => xs.toList.enum.map (fun p => (numToStr p.1, p.2))
  | .str s => s.enum.map (fun p => (numToStr p.1, JsonVal.str [p.2]))
  | _ => []

/-- The JS object spread {...base, ...v}. -/
def objSpread (base : List (Str × JsonVal)) (v : JsonVal) : List (Str × JsonVal) :=
  (spreadFields v).foldl (fun acc p => objSet acc p.1 p.2) base

/-! ## Path normalisation (src/server/index.js, normalizePathInput and friends) -/

/-- The regex character class [a-zA-Z0-9._-] used by the path patterns. -/
def isPathNameChar (c : Char) : Bool :=
  c.isAlphanum || c = '.' || c = '_' || c = '-'

/-- The regex class \w = [a-zA-Z0-9_]. -/
def isWordChar (c : Char) : Bool := c.isAlphanum || c = '_'

/-- The class [\w.-] of the third path-hint pattern. -/
def isWordDotDash (c : Char) : Bool := isWordChar c || c = '.' || c = '-'

/-- The test /[\\/]/ — a slash or backslash occurs. -/
def testSlashOrBackslash (s : Str) : Bool := s.any (fun c => c = '\\' || c = '/')

/-- The test /\.[a-zA-Z0-9]+$/ — the string ends in a dot followed by at
least one alphanumeric character. -/
def testDotExtEnd (s : Str) : Bool :=
  let r := s.reverse
  let run := r.takeWhile Char.isAlphanum
  !run.isEmpty && ((r.drop run.length).head? == some '.')

/-- Word-boundary \b before a character of class cls (JS semantics: the
sides of the position disagree on \w membership; the first matched
character must lie in cls). -/
def boundaryBefore (prev : Option Char) (c : Char) : Bool :=
  if isWordChar c then
    match prev with
    | none => true
    | some p => !isWordChar p
  else
    match prev with
    | some p => isWordChar p
    | none => false

/-- The test /\b[\w.-]+\//: scan every position; the class contains no
slash, so the greedy run must be followed directly by a slash. -/
def testWordDotSlashAux : Option Char → Str → Bool
  | _, [] => false
  | prev, c :: rest =>
      (boundaryBefore prev c && isWordDotDash c &&
        (((c :: rest).drop ((c :: rest).takeWhile isWordDotDash).length).head? == some '/'))
      || testWordDotSlashAux (some c) rest

/-- The test /\b[\w.-]+\//. -/
def testWordDotSlash (s : Str) : Bool := testWordDotSlashAux none s

/-- The test /\b[a-zA-Z0-9_-]+\.[a-zA-Z0-9]+/: the class contains no dot,
so the greedy run must be followed by a dot and an alphanumeric. -/
def testNameDotExtAux : Option Char → Str → Bool
  | _, [] => false
  | prev, c :: rest =>
      (boundaryBefore prev c && (c.isAlphanum || c = '_' || c = '-') &&
        (match (c :: rest).drop ((c :: rest).takeWhile
            (fun x => x.isAlphanum || x = '_' || x = '-')).length with
          | '.' :: d :: _ => d.isAlphanum
          | _ => false))
      || testNameDotExtAux (some c) rest

/-- The test /\b[a-zA-Z0-9_-]+\.[a-zA-Z0-9]+/. -/
def testNameDotExt (s : Str) : Bool := testNameDotExtAux none s

/-- First alternative [./][^\s]+\.[a-zA-Z0-9]+ of the extraction regex,
matched at the head of cs.  The greedy [^\s]+ backtracks from the longest
run, so the dot chosen is the last position j of the non-whitespace run
that is followed by an alphanumeric; the final [a-zA-Z0-9]+ then extends
greedily.  Returns the match length. -/
def matchAlt1 : Str → Option Nat
  | [] => none
  | c :: rest =>
      if c = '.' || c = '/' then
        let run := rest.takeWhile (fun x => !jsIsWs x)
        match ((List.range run.length).filter (fun j =>
            decide (1 ≤ j) && (run.get? j == some '.') &&
            (match run.get? (j+1) with
              | some d => d.isAlphanum
              | none => false))).getLast? with
        | some j => some (j + 2 + ((run.drop (j+1)).takeWhile Char.isAlphanum).length)
        | none => none
      else none

/-- Second alternative [a-zA-Z0-9._-]+\/[a-zA-Z0-9._-]+: the class has no
slash, so only the maximal first run can precede the slash. -/
def matchAlt2 (cs : Str) : Option Nat :=
  let r1 := (cs.takeWhile isPathNameChar).length
  if r1 = 0 then none
  else
    match cs.get? r1 with
    | some '/' =>
        let r2 := ((cs.drop (r1 + 1)).takeWhile isPathNameChar).length
        if r2 = 0 then none else some (r1 + 1 + r2)
    | _ => none

/-- Third alternative [a-zA-Z0-9._-]+\.md: backtracking picks the last
position of the class run at which the literal ".md" occurs. -/
def matchAlt3 (cs : Str) : Option Nat :=
  let run := cs.takeWhile isPathNameChar
  match ((List.range run.length).filter (fun j =>
      decide (1 ≤ j) && (run.get? j == some '.') &&
      (run.get? (j+1) == some 'm') && (run.get? (j+2) == some 'd'))).getLast? with
  | some j => some (j + 3)
  | none => none

/-- Fourth alternative \b\w+\/. -/
def matchAlt4 (prev : Option Char) : Str → Option Nat
  | [] => none
  | c :: rest =>
      if isWordChar c && (match prev with | none => true | some p => !isWordChar p) then
        let w := ((c :: rest).takeWhile isWordChar).length
        match (c :: rest).get? w with
        | some '/' => some (w + 1)
        | _ => none
      else none

/-- The alternation of the extraction regex, alternatives tried in source
order (JS picks the first alternative that matches). -/
def matchAlt (prev : Option Char) (cs : Str) : Option Nat :=
  (matchAlt1 cs).orElse (fun _ =>
    (matchAlt2 cs).orElse (fun _ =>
      (matchAlt3 cs).orElse (fun _ => matchAlt4 prev cs)))

/-- Global matching (String.prototype.match with the g flag): successive
leftmost matches, resuming right after each match.  Fuel is the remaining
length; every step consumes at least one character. -/
def extractLoop : Nat → Option Char → Str → List Str
  | 0, _, _ => []
  | _, _, [] => []
  | Nat.succ f, prev, c :: rest =>
      match matchAlt prev (c :: rest) with
      | some len =>
          let k := max len 1
          (c :: rest).take len ::
            extractLoop f (((c :: rest).take k).getLast?) ((c :: rest).drop k)
      | none => extractLoop f (some c) rest

/-- All matches of the extraction regex
([./][^\s]+\.[a-zA-Z0-9]+|[a-zA-Z0-9._-]+\/[a-zA-Z0-9._-]+|[a-zA-Z0-9._-]+\.md|\b\w+\/)
over the string (an absent match is the empty list, as the source
replaces a null match result by []). -/
def extractMatches (s : Str) : List Str := extractLoop s.length none s

/-- String.prototype.split on a set of separator characters, keeping empty
segments (JS semantics). -/
def jsSplitAny (seps : List Char) : Str → List Str
  | [] => [[]]
  | c :: rest =>
      match jsSplitAny seps rest with
      | [] => [[]]
      | h :: t => if c ∈ seps then [] :: h :: t else (c :: h) :: t

/-- src/server/index.js, normalizePathInput (lines 2394-2437).  Note that
the split regex literal /[;,\\n]/ contains an escaped backslash, so the
separator class is left brace ; , \ n right brace — it splits on the
letter n and on backslashes, not on newlines. -/
def normalizePathInput (input : JsonVal) : List Str :=
  match input with
  | .arr items =>
      dedupe ((items.toList.map (fun it => jsTrim (jsToString it))).filter
        (fun s => s ≠ []))
  | .str s =>
      let trimmed := jsTrim s
      if trimmed = [] then []
      else
        let hasPathHint := testSlashOrBackslash trimmed || testDotExtEnd trimmed ||
          testWordDotSlash trimmed || testNameDotExt trimmed
        let extracted := extractMatches trimmed
        let splitByTokens :=
          ((jsSplitAny [';', ',', '\\', 'n'] trimmed).map jsTrim).filter (fun t => t ≠ [])
        let values :=
          if extracted ≠ [] then extracted
          else if splitByTokens ≠ [] then splitByTokens
          else [s]
        let normalized := values.filter (fun v => jsTrim v ≠ [])
        if extracted = [] ∧ normalized.length = 1 then
          let first := normalized.headD []
          if first.contains ' ' || !hasPathHint then []
          else dedupe (normalized.filter (fun v => v ≠ []))
        else dedupe (normalized.filter (fun v => v ≠ []))
  | _ => []

/-- src/server/index.js, normalizeArrayArgument (lines 2439-2449). -/
def normalizeArrayArgument : JsonVal → List Str
  | .arr items =>
      dedupe ((items.toList.map (fun it => jsTrim (jsToString it))).filter
        (fun s => s ≠ []))
  | .str s => normalizePathInput (.str s)
  | _ => []

/-- normalizeArrayArgument applied to a possibly-undefined argument (the
source reaches its final return [] for undefined input). -/
def normalizeArrayArgumentJ : JSVal → List Str
  | none => []
  | some v => normalizeArrayArgument v

/-- src/server/index.js line 1932: LOCAL_MCP_DEFAULT_PATHS is the
environment value (or the default "notes/") split on commas, trimmed,
with empties dropped.  An absent variable is the empty string here, which
the || treats like undefined. -/
def parseDefaultPathsEnv (envArg : Str) : List Str :=
  let base := if envArg ≠ [] then envArg else "notes/".toList
  ((jsSplitAny [','] base).map jsTrim).filter (fun s => s ≠ [])

/-! ## Argument sanitisation (src/server/index.js, sanitizeToolArguments,
lines 2549-2638) -/

/-- A JS object value as an ordered field list. -/
abbrev JsObj := List (Str × JsonVal)

/-- The seed text of sanitizeToolArguments: the routed query when it is a
non-empty string, the prompt otherwise. -/
def seedOf (prompt routedQuery : JsonVal) : JsonVal :=
  match routedQuery with
  | .str s => if s ≠ [] then .str s else prompt
  | _ => prompt

/-- tool.inputSchema falling back to the empty object. -/
def schemaOf (tool : JsonVal) : JsonVal :=
  jsOrV (getField tool (sInputSchema)) (jObj [])

/-- The spread of schema.properties (falling back to the empty object). -/
def propsEntriesOf (tool : JsonVal) : List (Str × JsonVal) :=
  spreadFields (jsOrV (getField (schemaOf tool) (sProperties)) (jObj []))

/-- Array.isArray(schema.required) ? schema.required : []. -/
def requiredOf (tool : JsonVal) : List JsonVal :=
  match getField (schemaOf tool) (sRequired) with
  | some (.arr xs) => xs.toList
  | _ => []

/-- Object.keys(props). -/
def keysOf (tool : JsonVal) : List Str := (propsEntriesOf tool).map Prod.fst

/-- Stage: when the schema mentions paths, resolve them from the provided
paths/path/path_list argument, else the seed, else the defaults. -/
def sanPaths (defaultPaths : List Str) (keys : List Str) (required : List JsonVal)
    (seed : JsonVal) (args : JsObj) : JsObj :=
  if inclStr keys (sPaths) || jsIncludes required (.str (sPaths)) then
    let providedPaths := normalizeArrayArgumentJ (jsOrChain
      [objGet args (sPaths), objGet args (sPath), objGet args (sPathList)])
    let fallbackPaths := normalizePathInput seed
    let paths :=
      if providedPaths ≠ [] then providedPaths
      else if fallbackPaths ≠ [] then fallbackPaths
      else defaultPaths
    objSet args (sPaths) (jArr (paths.map JsonVal.str))
  else args

/-- Stage: when the schema mentions output_path, default a missing or
blank value to "output.md". -/
def sanOutputPath (keys : List Str) (required : List JsonVal) (args : JsObj) : JsObj :=
  if jsIncludes required (.str (sOutputPath)) || inclStr keys (sOutputPath) then
    match objGet args (sOutputPath) with
    | some (.str s) =>
        if jsTrim s ≠ [] then args
        else objSet args (sOutputPath) (.str (sOutputMd))
    | _ => objSet args (sOutputPath) (.str (sOutputMd))
  else args

/-- The declared type list of a property schema (a type array is spread,
anything else is a single entry). -/
def propTypes (pv : JsonVal) : List JSVal :=
  match getField pv (sType) with
  | some (.arr xs) => xs.toList.map some
  | t => [t]

/-- One property of the type-coercion loop of sanitizeToolArguments:
array-typed values are normalised to string arrays, string-typed
non-string non-array values are stringified. -/
def sanPropStep (acc : JsObj) (pe : Str × JsonVal) : JsObj :=
  match objGet acc pe.1 with
  | none => acc
  | some v =>
    if v = JsonVal.null then acc
    else
      let types := propTypes pe.2
      if types.any (fun t => strictEqJV t (some (.str (sArray)))) then
        objSet acc pe.1 (jArr ((normalizeArrayArgument v).map JsonVal.str))
      else if types.any (fun t => strictEqJV t (some (.str (sString)))) &&
          !(isArr v) && !(isStr v) then
        objSet acc pe.1 (.str (jsToString v))
      else acc

/-- The type-coercion loop over the schema properties. -/
def sanProps (propsEntries : List (Str × JsonVal)) (args : JsObj) : JsObj :=
  propsEntries.foldl sanPropStep args

/-- One entry of the required-key fill loop: a present key is left alone;
a missing output_path gets "output.md"; missing/empty paths get the seed
paths or the defaults; any other (string or declared) key gets the seed. -/
def sanReqStep (defaultPaths : List Str) (keys : List Str) (seed : JsonVal)
    (acc : JsObj) (rk : JsonVal) : JsObj :=
  let key := jsToString rk
  if objHas acc key then acc
  else if strictEqPrim rk (.str (sOutputPath)) then
    objSet acc (sOutputPath) (.str (sOutputMd))
  else if strictEqPrim rk (.str (sPaths)) then
    match objGet acc (sPaths) with
    | some (.arr xs) =>
        if xs.toList ≠ [] then acc
        else
          let parsedPaths := normalizePathInput seed
          objSet acc (sPaths)
            (jArr ((if parsedPaths ≠ [] then parsedPaths else defaultPaths).map JsonVal.str))
    | _ =>
        let parsedPaths := normalizePathInput seed
        objSet acc (sPaths)
          (jArr ((if parsedPaths ≠ [] then parsedPaths else defaultPaths).map JsonVal.str))
  else if keys.any (fun k => strictEqPrim rk (.str k)) || isStr rk then
    objSet acc key seed
  else acc

/-- The required-key fill loop. -/
def sanRequired (defaultPaths : List Str) (keys : List Str) (seed : JsonVal)
    (required : List JsonVal) (args : JsObj) : JsObj :=
  required.foldl (sanReqStep defaultPaths keys seed) args

/-- The candidate query keys probed last by sanitizeToolArguments. -/
def candidateKeysDef : List Str :=
  [sQuery, sInput, sText, sPrompt, sQ, sQuestion, sContent]

/-- The final candidate-key seeding: the first schema key among the
candidates that is still absent from the arguments receives the seed. -/
def sanCandidate (keys : List Str) (seed : JsonVal) (args : JsObj) : JsObj :=
  match candidateKeysDef.find? (fun k => inclStr keys k && !objHas args k) with
  | some k => objSet args k seed
  | none => args

/-- The base copy of toolArguments: its fields when it is a non-array
object, the empty object otherwise. -/
def inputArgsOf (toolArguments : JsonVal) : JsObj :=
  match toolArguments with
  | .obj fs => fs.toFields
  | _ => []

/-- src/server/index.js, sanitizeToolArguments (lines 2549-2638), the
composed pipeline.  defaultPaths stands for the module configuration
LOCAL_MCP_DEFAULT_PATHS (see parseDefaultPathsEnv); the remaining
parameters mirror the source signature (tool, prompt, toolArguments,
routedQuery). -/
def sanitizeToolArguments (defaultPaths : List Str) (tool : JsonVal)
    (prompt : JsonVal) (toolArguments : JsonVal) (routedQuery : JsonVal) : JsObj :=
  let inputArgs : JsObj := inputArgsOf toolArguments
  if !(truthy tool && isObjLike tool) then inputArgs
  else
    let keys := keysOf tool
    let required := requiredOf tool
    let seed := seedOf prompt routedQuery
    sanCandidate keys seed
      (sanRequired defaultPaths keys seed required
        (sanProps (propsEntriesOf tool)
          (sanOutputPath keys required
            (sanPaths defaultPaths keys required seed inputArgs))))

/-! ## Discovery-path extraction and the path-required preflight of
callLocalMCP (src/server/index.js, lines 2076-2094 and 3218-3326) -/

mutual
/-- src/server/index.js, normalizeDiscoveryExpectedPaths: walk an array,
path-normalising string items and recursing into nested arrays. -/
def normalizeDiscoveryExpectedPaths : JsonVal → List Str
  | .arr xs => dedupe ((ndepItems xs).filter (fun s => s ≠ []))
  | _ => []
/-- Collected entries of one array level of
normalizeDiscoveryExpectedPaths. -/
def ndepItems : JsonArr → List Str
  | .nil => []
  | .cons it tl =>
      (match it with
        | .str s =>
            let parsed := normalizePathInput (.str s)
            if parsed ≠ [] then parsed else []
        | .arr ys => normalizeDiscoveryExpectedPaths (.arr ys)
        | _ => []) ++ ndepItems tl
end

/-- normalizeDiscoveryExpectedPaths on a possibly-undefined value
(the source returns [] for non-arrays). -/
def normalizeDiscoveryExpectedPathsJ : JSVal → List Str
  | none => []
  | some v => normalizeDiscoveryExpectedPaths v

/-- The externally-determined part of the discovery attempt inside
callLocalMCP: whether pickDiscoveryTool / pickFallbackDiscoveryTool found
a tool, and the outcome of the discovery tools/call over the wire. -/
structure DiscoveryEnv where
  hasDiscoveryTool : Bool
  discoveryStatus : Int
  discoveryError : Bool
  discoveryPaths : List Str

/-- Outcome of the path-required preflight: either the early
requiresInput/missing=paths return (no tools/call issued for the selected
tool), or the primary tools/call with the final arguments. -/
inductive PreflightOutcome where
  | requiresPathInput (args : JsObj)
  | callTool (args : JsObj)

/-- Array.isArray(selectedTool?.inputSchema?.required) ? ... : []. -/
def selRequiredOf (selectedTool : JsonVal) : List JsonVal :=
  match getFieldOpt (getFieldOpt (some selectedTool) (sInputSchema))
      (sRequired) with
  | some (.arr xs) => xs.toList
  | _ => []

/-- src/server/index.js lines 3225-3305: the argument object after the
discovery block of the path-required preflight (args.paths reassigned when
the tool requires paths and none were provided). -/
def preflightArgs2 (defaultPaths : List Str) (selectedTool : JsonVal)
    (toolPlanDiscovery : JSVal) (denv : DiscoveryEnv) (args : JsObj) : JsObj :=
  let needsPath := jsIncludes (selRequiredOf selectedTool) (.str (sPaths))
  let pathsVal := objGet args (sPaths)
  let hasPathArg :=
    match pathsVal with
    | some (.arr xs) => xs.toList.length > 0
    | _ => false
  let hasOnlyDirectoryHint :=
    if hasPathArg then
      (match pathsVal with
        | some (.arr xs) =>
            match xs.toList with
            | [p] => strictEqPrim p (.str (sDot))
            | _ => false
        | _ => false)
    else false
  let args2 :=
    if needsPath && (!hasPathArg || hasOnlyDirectoryHint) then
      let discoveryPlan := jsOrV toolPlanDiscovery (jObj [])
      let expectedPaths :=
        normalizeDiscoveryExpectedPathsJ (getField discoveryPlan (sExpectedPaths))
      let resolved0 := dedupe (expectedPaths.filter (fun s => s ≠ []))
      let resolved :=
        if resolved0.length = 0 && denv.hasDiscoveryTool then
          if denv.discoveryStatus ≥ 400 || denv.discoveryError then resolved0
          else dedupe (resolved0 ++ denv.discoveryPaths)
        else resolved0
      let newPaths :=
        if resolved.length > 0 then
          if resolved = [sDot] then [] else resolved
        else defaultPaths
      objSet args (sPaths) (jArr (newPaths.map JsonVal.str))
    else args
  args2

/-- src/server/index.js lines 3218-3326: the path-required preflight of
callLocalMCP between argument sanitisation and the primary tools/call.
args is the sanitised argument object (when the tool requires paths the
sanitiser has set a paths array, which is what the source's
args.paths.length accesses rely on); toolPlanDiscovery is
toolPlan?.discovery.  The final guard (line 3305) returns the
requiresInput/missing=paths response when the required paths are still
empty, and issues the primary tools/call otherwise. -/
def mcpPathPreflight (defaultPaths : List Str) (selectedTool : JsonVal)
    (toolPlanDiscovery : JSVal) (denv : DiscoveryEnv) (args : JsObj) :
    PreflightOutcome :=
  let args2 := preflightArgs2 defaultPaths selectedTool toolPlanDiscovery denv args
  let finalPathsLen :=
    match objGet args2 (sPaths) with
    | some (.arr xs) => xs.toList.length
    | _ => 0
  if jsIncludes (selRequiredOf selectedTool) (.str (sPaths)) && finalPathsLen = 0 then
    .requiresPathInput args2
  else .callTool args2

/-! ## Shared agent-response shape and the GitHub-PR policy module
(src/server/lib/policies/githubPrPolicy.js) -/

/-- The fields of an agent response that the workflow runner, the policies
and the writer/evaluator pipeline read or write; absent fields are none
(JS undefined).  jp below always stands for JSON.parse at the wire
boundary: none models a parse exception. -/
structure AgentResponse where
  answer : JSVal
  result : JSVal
  requiresInput : JSVal
  missing : JSVal
  mcpStatus : JSVal

/-- githubPrPolicy.js, parseSyncStatusPayload (lines 14-35): the result
field when it is a plain object, else the JSON.parse of a string answer
when that yields a plain object, else null (none). -/
def parseSyncStatusPayload (jp : Str → Option JsonVal) (response : AgentResponse) :
    Option JsonVal :=
  match response.result with
  | some (.obj fs) => some (.obj fs)
  | _ =>
    match response.answer with
    | some (.str s) =>
        match jp s with
        | some (.obj fs) => some (.obj fs)
        | _ => none
    | _ => none

/-- Result record of evaluateGitHubPRReadiness. -/
structure Readiness where
  canProceed : Bool
  reason : Str
  payload : Option JsonVal

/-- The parse-failure reason string of evaluateGitHubPRReadiness. -/
def msgSyncParseFailed : Str := "sync_status 결과 구조를 파싱하지 못했습니다.".toList

/-- The workspace-not-ready reason string of evaluateGitHubPRReadiness. -/
def msgWorkspaceNotReady : Str :=
  "PR 생성 전 작업공간 상태를 충족하지 못했습니다. staged/unstaged/untracked/ready_for_pr 상태를 확인해 주세요.".toList

/-- githubPrPolicy.js, evaluateGitHubPRReadiness (lines 37-64). -/
def evaluateGitHubPRReadiness (jp : Str → Option JsonVal)
    (syncResponse : AgentResponse) : Readiness :=
  match parseSyncStatusPayload jp syncResponse with
  | none => { canProceed := false, reason := msgSyncParseFailed, payload := none }
  | some payload =>
      let isClean := strictEqJV (getField payload (sIsClean)) (some (.bool true))
      let readyForPr :=
        strictEqJV (getField payload (sReadyForPr)) (some (.bool true))
      if !isClean || !readyForPr then
        { canProceed := false, reason := msgWorkspaceNotReady, payload := some payload }
      else
        { canProceed := true, reason := [], payload := some payload }

/-- githubPrPolicy.js, buildGitHubPRWorkflowSteps (lines 66-112). -/
def buildGitHubPRWorkflowSteps (syncStatusToolName pullToolName createPRToolName : JsonVal)
    (createPRToolArguments : JSVal) : JsonVal :=
  let pullSteps : List JsonVal :=
    if truthy pullToolName then
      [jObj [(sId, .str (sPullIfNeeded)),
          (sTool, pullToolName),
          (sToolArguments, jObj []),
          (sWhen, jObj [(sType, .str (sSyncFieldEquals)),
            (sField, .str (sReadyForPull)),
            (sEquals, .bool true)])],
        jObj [(sId, .str (sSyncRefreshAfterPull)),
          (sTool, syncStatusToolName),
          (sToolArguments, jObj []),
          (sWhen, jObj [(sType, .str (sStepExecuted)),
            (sStepId, .str (sPullIfNeeded))])]]
    else []
  let createStep := jObj [(sId, .str (sCreatePrIfReady)),
    (sTool, createPRToolName),
    (sToolArguments, jsOrV createPRToolArguments (jObj [])),
    (sWhen, jObj [(sType, .str (sSyncFieldEquals)),
      (sField, .str (sReadyForPr)),
      (sEquals, .bool true)])]
  jObj [(sType, .str (sGithubPr)),
    (sSchema, .str (sWorkflowStepsV1)),
    (sMode, .str (sSequential)),
    (sSteps, jArr (pullSteps ++ [createStep]))]

/-! ## Workflow runner (orchestration module, shouldRunWorkflowStep and
runWorkflowSteps) -/

/-- Generic first-occurrence association lookup (JS Map.get). -/
def assocGet {β : Type} : List (Str × β) → Str → Option β
  | [], _ => none
  | (k1, v) :: rest, k => if k1 = k then some v else assocGet rest k

/-- JS Map.set: overwrite in place, else append. -/
def assocSet {β : Type} (m : List (Str × β)) (k : Str) (v : β) : List (Str × β) :=
  if m.any (fun p => p.1 = k) then
    m.map (fun p => if p.1 = k then (k, v) else p)
  else
    m ++ [(k, v)]

/-- What the runner stores per executed step (stepResults.set). -/
structure StepResult where
  executed : Bool
  status : JsonVal
  response : AgentResponse

/-- One record of workflowState.steps. -/
structure StepEntry where
  id : Str
  tool : Option Str
  executed : Bool
  skipped : Bool
  reason : Option Str
  status : Option JsonVal

/-- The workflowState record of runWorkflowSteps (type is a Lean keyword,
hence wtype). -/
structure WorkflowState where
  wtype : JsonVal
  schema : JsonVal
  proceeded : Bool
  reason : Str
  steps : List StepEntry

/-- Decision record of shouldRunWorkflowStep. -/
structure Decision where
  run : Bool
  reason : Str

/-- Orchestration module, shouldRunWorkflowStep (lines 134-165). -/
def shouldRunWorkflowStep (whenV : JSVal) (syncPayload : Option JsonVal)
    (stepResults : List (Str × StepResult)) : Decision :=
  match whenV with
  | none => { run := true, reason := [] }
  | some w =>
    if !(truthy w && isObjLike w) then { run := true, reason := [] }
    else if strictEqJV (getField w (sType))
        (some (.str (sSyncFieldEquals))) then
      let field : Str :=
        match getField w (sField) with
        | some (.str f) => f
        | _ => []
      let expected := getField w (sEquals)
      let actual : JSVal :=
        if field ≠ [] then
          match syncPayload with
          | some p => getField p field
          | none => none
        else none
      if strictEqJV actual expected then { run := true, reason := [] }
      else
        { run := false,
          reason := "조건 불일치: sync_status.".toList ++ field ++ " === ".toList ++
            jsonStringifyT expected ++ " 필요".toList }
    else if strictEqJV (getField w (sType))
        (some (.str (sStepExecuted))) then
      let stepId : Str :=
        match getField w (sStepId) with
        | some (.str s) => s
        | _ => []
      let executed := stepId ≠ [] &&
        (match assocGet stepResults stepId with
          | some r => r.executed
          | none => false)
      if executed then { run := true, reason := [] }
      else { run := false, reason := "선행 step 미실행: ".toList ++ stepId }
    else { run := true, reason := [] }

/-- Loop context of runWorkflowSteps: the accumulated sync payload, the
latest readiness evaluation, the stepResults map, the workflowState.steps
entries pushed so far, the current activeResponse and the number of
execute calls issued (indexing the environment env of execution-agent
responses). -/
structure WfCtx where
  syncPayload : Option JsonVal
  readiness : Readiness
  stepResults : List (Str × StepResult)
  entries : List StepEntry
  active : AgentResponse
  execCount : Nat

/-- The skip reason recorded for a step without a tool name. -/
def msgEmptyToolName : Str := "도구명이 비어 있음".toList

/-- typeof step?.id === 'string' ? step.id : `step underscore index`
(indexed from the number of entries pushed so far, plus one). -/
def stepIdAt (s : JsonVal) (n : Nat) : Str :=
  match getField s (sId) with
  | some (.str sid) => sid
  | _ => sStepUnder ++ numToStr (Int.ofNat (n + 1))

/-- typeof step?.tool === 'string' ? step.tool : ''. -/
def stepToolOf (s : JsonVal) : Str :=
  match getField s (sTool) with
  | some (.str t) => t
  | _ => []

/-- One iteration of the for-loop of runWorkflowSteps (lines 201-278). -/
def runWorkflowStepIter (jp : Str → Option JsonVal) (env : Nat → AgentResponse)
    (s : JsonVal) (ctx : WfCtx) : WfCtx :=
  let stepId : Str := stepIdAt s ctx.entries.length
  let tool : Str := stepToolOf s
  let decision := shouldRunWorkflowStep (getField s (sWhen)) ctx.syncPayload
    ctx.stepResults
  if tool = [] then
    let entry : StepEntry :=
      { id := stepId, tool := none, executed := false, skipped := true,
        reason := some msgEmptyToolName, status := none }
    { ctx with entries := ctx.entries ++ [entry] }
  else if !decision.run then
    let entry : StepEntry :=
      { id := stepId, tool := some tool, executed := false, skipped := true,
        reason := some decision.reason, status := none }
    { ctx with entries := ctx.entries ++ [entry] }
  else
    let active := env ctx.execCount
    let status := jsOrV active.mcpStatus (.num 200)
    let results := assocSet ctx.stepResults stepId
      { executed := true, status := status, response := active }
    let entry : StepEntry :=
      { id := stepId, tool := some tool, executed := true, skipped := false,
        reason := none, status := some status }
    let entries := ctx.entries ++ [entry]
    let evaluated := evaluateGitHubPRReadiness jp active
    { syncPayload :=
        match evaluated.payload with
        | some p => some p
        | none => ctx.syncPayload,
      readiness := evaluated,
      stepResults := results,
      entries := entries,
      active := active,
      execCount := ctx.execCount + 1 }

/-- The for-loop of runWorkflowSteps over the declared steps, in order. -/
def runWorkflowLoop (jp : Str → Option JsonVal) (env : Nat → AgentResponse) :
    List JsonVal → WfCtx → WfCtx
  | [], ctx => ctx
  | s :: rest, ctx => runWorkflowLoop jp env rest (runWorkflowStepIter jp env s ctx)

/-- Template rendering of activeResponse?.answer || '' inside the
github_pr termination rule. -/
def templateAnswerText (a : JSVal) : Str :=
  match a with
  | some v => if truthy v then jsToString v else []
  | none => []

/-- The fallback reason of the github_pr termination rule. -/
def msgCreatePrNotRun : Str :=
  "PR 생성 조건을 충족하지 못해 create_pr를 실행하지 않았습니다.".toList

/-- Lower-casing of a JS string (ASCII tool ids in this repo). -/
def lowerStr (s : Str) : Str := s.map Char.toLower

/-- JS String.prototype.includes: needle occurs contiguously in hay. -/
def strContainsSub (hay needle : Str) : Bool :=
  match hay with
  | [] => needle.isEmpty
  | _ :: t => needle.isPrefixOf hay || strContainsSub t needle

/-- Result of runWorkflowSteps. -/
structure WorkflowOutcome where
  response : AgentResponse
  workflowState : WorkflowState

/-- The loop context at entry of the step loop of runWorkflowSteps: the
initial readiness evaluation of the initial response, empty stepResults
and entries. -/
def initialWfCtx (jp : Str → Option JsonVal) (initialResponse : AgentResponse) : WfCtx :=
  let readiness0 := evaluateGitHubPRReadiness jp initialResponse
  { syncPayload := readiness0.payload, readiness := readiness0,
    stepResults := [], entries := [], active := initialResponse,
    execCount := 0 }

/-- The created flag of the github_pr termination rule: the first step
whose id contains create_pr (case-insensitively) has an executed
stepResults record. -/
def wfCreated (steps : List JsonVal) (fin : WfCtx) : Bool :=
  let createStep := steps.find? (fun st =>
    match getField st (sId) with
    | some (.str sid) => strContainsSub (lowerStr sid) (sCreatePr)
    | _ => false)
  match createStep with
  | some st =>
    match getField st (sId) with
    | some (.str sid) =>
        match assocGet fin.stepResults sid with
        | some r => r.executed
        | none => false
    | _ => false
  | none => false

/-- Orchestration module, runWorkflowSteps (lines 173-305): the initial
readiness evaluation, the sequential step loop, and the github_pr
termination rule.  env is the sequence of execution-agent responses
returned by the injected execute collaborator. -/
def runWorkflowSteps (jp : Str → Option JsonVal) (env : Nat → AgentResponse)
    (workflow : JSVal) (initialResponse : AgentResponse) : WorkflowOutcome :=
  let state0 : WorkflowState :=
    { wtype := jsOrV (getFieldOpt workflow (sType)) (.str (sWorkflow)),
      schema := jsOrV (getFieldOpt workflow (sSchema)) .null,
      proceeded := false, reason := [], steps := [] }
  let stepsArr : Option (List JsonVal) :=
    match getFieldOpt workflow (sSteps) with
    | some (.arr xs) => some xs.toList
    | _ => none
  if !(jsvTruthy workflow) then { response := initialResponse, workflowState := state0 }
  else
    match stepsArr with
    | none => { response := initialResponse, workflowState := state0 }
    | some steps =>
      if steps = [] then { response := initialResponse, workflowState := state0 }
      else
        let fin := runWorkflowLoop jp env steps (initialWfCtx jp initialResponse)
        if strictEqJV (getFieldOpt workflow (sType))
            (some (.str (sGithubPr))) then
          if !(wfCreated steps fin) then
            let reason :=
              if fin.readiness.reason ≠ [] then fin.readiness.reason
              else msgCreatePrNotRun
            let resp : AgentResponse :=
              { fin.active with
                answer := some (.str (jsTrim (reason ++ sTwoNewlines ++
                  templateAnswerText fin.active.answer))),
                requiresInput := some (.bool true),
                missing := some (.str (sWorkspaceState)) }
            let st : WorkflowState :=
              { state0 with proceeded := false, reason := reason, steps := fin.entries }
            { response := resp, workflowState := st }
          else
            { response := fin.active,
              workflowState := { state0 with proceeded := true, steps := fin.entries } }
        else
          { response := fin.active,
            workflowState := { state0 with proceeded := true, steps := fin.entries } }

/-! ## Writer / evaluator pipeline (orchestration module, lines 561-698) -/

/-- The qualityCheck record produced by runEvaluatorAgent. -/
structure QualityCheck where
  pass : Bool
  score : Int
  feedback : Str
  deriving DecidableEq

/-- The defensive default of runEvaluatorAgent. -/
def defaultQualityCheck : QualityCheck := { pass := true, score := 80, feedback := [] }

/-- Orchestration module, runEvaluatorAgent (lines 603-655): the parse of
the evaluator LLM reply.  The argument is the JSON.parse outcome of the
reply text (none models a parse exception). -/
def parseEvaluatorReply (reply : Option JsonVal) : QualityCheck :=
  match reply with
  | none => defaultQualityCheck
  | some value =>
      if truthy value && isObjLike value then
        { pass := !(strictEqJV (getField value (sPass)) (some (.bool false))),
          score :=
            match getField value (sScore) with
            | some (.num n) => n
            | _ => 80,
          feedback :=
            match getField value (sFeedback) with
            | some (.str s) => s
            | _ => [] }
      else defaultQualityCheck

/-- Orchestration module, runWriterAgent (lines 561-601): the response with
the answer replaced by drafted || baseResponse?.answer || ''.  drafted is
the writer LLM text reply. -/
def runWriterAgent (base : AgentResponse) (drafted : Str) : AgentResponse :=
  { base with
    answer := some (if drafted ≠ [] then .str drafted else jsOrV base.answer (.str [])) }

/-- Result of the writer/evaluator pipeline. -/
structure PipelineResult where
  response : AgentResponse
  evaluation : QualityCheck

/-- Orchestration module, runWriterEvaluationPipeline (lines 657-698).
w1/w2 are the writer LLM text replies of the (up to) two writer calls,
e1/e2 the JSON.parse outcomes of the (up to) two evaluator replies. -/
def runWriterEvaluationPipeline (resp : AgentResponse) (w1 w2 : Str)
    (e1 e2 : Option JsonVal) : PipelineResult :=
  let drafted1 := runWriterAgent resp w1
  let firstEval := parseEvaluatorReply e1
  if firstEval.pass then { response := drafted1, evaluation := firstEval }
  else
    let drafted2 := runWriterAgent drafted1 w2
    let secondEval := parseEvaluatorReply e2
    { response := drafted2, evaluation := secondEval }

/-- Instrumented rendering of runWriterEvaluationPipeline that additionally
counts the writer and evaluator invocations and records the feedback passed
to the second writer call; the response/evaluation components compute
exactly as in runWriterEvaluationPipeline. -/
structure PipelineTrace where
  response : AgentResponse
  evaluation : QualityCheck
  writerCalls : Nat
  evaluatorCalls : Nat
  secondWriterFeedback : Option Str

/-- runWriterEvaluationPipeline with call counting (see PipelineTrace). -/
def runWriterEvaluationPipelineTraced (resp : AgentResponse) (w1 w2 : Str)
    (e1 e2 : Option JsonVal) : PipelineTrace :=
  let drafted1 := runWriterAgent resp w1
  let firstEval := parseEvaluatorReply e1
  if firstEval.pass then
    { response := drafted1, evaluation := firstEval, writerCalls := 1,
      evaluatorCalls := 1, secondWriterFeedback := none }
  else
    let drafted2 := runWriterAgent drafted1 w2
    let secondEval := parseEvaluatorReply e2
    { response := drafted2, evaluation := secondEval, writerCalls := 2,
      evaluatorCalls := 2, secondWriterFeedback := some firstEval.feedback }

/-! ## Tool-spec merge (src/server/index.js, mergeToolSpecs, lines 2038-2074) -/

/-- Spread of a possibly-undefined value ({...undefined} adds nothing). -/
def objSpreadJ (base : List (Str × JsonVal)) (v : JSVal) : List (Str × JsonVal) :=
  match v with
  | none => base
  | some x => objSpread base x

/-- The merged entry {...tool, ...enriched, inputSchema: {...tool.inputSchema,
...enriched.inputSchema}} of mergeToolSpecs. -/
def spreadMergeTool (t e : JsonVal) : JsonVal :=
  let withEnriched := objSpread (spreadFields t) e
  let mergedSchema :=
    objSpreadJ (objSpreadJ [] (getField t (sInputSchema)))
      (getField e (sInputSchema))
  .obj (JsonObj.ofFields (objSet withEnriched (sInputSchema)
    (.obj (JsonObj.ofFields mergedSchema))))

/-! ## SSE framing of the streaming endpoint (src/server/index.js
writeSSE/streamText and POST /api/mcp/chat/stream, lines 3636-3718;
orchestration module, runOutputAgentStream, lines 905-935) -/

/-- The event kind of one SSE frame written by writeSSE.  Payloads are not
needed by the framing claims. -/
inductive SSEFrame where
  | a2a
  | delta
  | final
  | done
  | error
  deriving DecidableEq

/-- The chunk slices of streamText: slice(start, start+chunkSize) for
start = 0, chunkSize, 2*chunkSize, ... while start < length.  Fuel is the
string length (the source uses the constant chunk size 48). -/
def chunkSlices : Nat → Nat → Str → List Str
  | 0, _, _ => []
  | Nat.succ f, n, l => if l = [] then [] else l.take n :: chunkSlices f n (l.drop n)

/-- src/server/index.js, streamText: one delta frame per 48-character
chunk; a falsy (empty) text emits nothing. -/
def streamTextFrames (fullText : Str) : List SSEFrame :=
  if fullText = [] then [] else (chunkSlices fullText.length 48 fullText).map (fun _ => .delta)

/-- Orchestration module, runOutputAgentStream: the a2a output.request
notification, the delta chunks of the answer, the final frame, the done
frame, and the a2a output.done notification — in that order. -/
def runOutputAgentStreamFrames (answer : Str) : List SSEFrame :=
  [.a2a] ++ streamTextFrames answer ++ [.final, .done, .a2a]

/-- POST /api/mcp/chat/stream, success path: every frame emitted during
runOrchestration is an a2a frame (each emit call of the orchestration
module passes the event name a2a), followed by the output-agent frames;
orchestrationA2ACount is the number of those orchestration emits. -/
def streamEndpointSuccessFrames (orchestrationA2ACount : Nat) (answer : Str) :
    List SSEFrame :=
  List.replicate orchestrationA2ACount .a2a ++ runOutputAgentStreamFrames answer

/-- POST /api/mcp/chat/stream, error path: the a2a frames emitted before
the exception, then an error frame and a done frame. -/
def streamEndpointErrorFrames (orchestrationA2ACount : Nat) : List SSEFrame :=
  List.replicate orchestrationA2ACount .a2a ++ [.error, .done]

/-! ## Generic lemmas -/

theorem mem_dedupeAux {α : Type} [DecidableEq α] (x : α) :
    ∀ (l : List α) (seen : List α), x ∈ dedupeAux seen l ↔ x ∈ l ∧ x ∉ seen := by
  intro l
  induction l with
  | nil => intro seen; simp [dedupeAux]
  | cons a t ih =>
    intro seen
    by_cases ha : a ∈ seen
    · rw [dedupeAux, if_pos ha, ih]
      constructor
      · rintro ⟨hx, hs⟩
        exact ⟨List.mem_cons_of_mem _ hx, hs⟩
      · rintro ⟨hx, hs⟩
        rcases List.mem_cons.mp hx with rfl | hx
        · exact absurd ha hs
        · exact ⟨hx, hs⟩
    · rw [dedupeAux, if_neg ha, List.mem_cons, ih]
      constructor
      · rintro (rfl | ⟨hx, hs⟩)
        · exact ⟨List.mem_cons_self _ _, ha⟩
        · exact ⟨List.mem_cons_of_mem _ hx, fun hm => hs (List.mem_cons_of_mem _ hm)⟩
      · rintro ⟨hx, hs⟩
        rcases List.mem_cons.mp hx with rfl | hx
        · exact Or.inl rfl
        · by_cases hxa : x = a
          · exact Or.inl hxa
          · refine Or.inr ⟨hx, fun hm => ?_⟩
            rcases List.mem_cons.mp hm with h | h
            · exact hxa h
            · exact hs h

theorem mem_dedupe {α : Type} [DecidableEq α] (x : α) (l : List α) :
    x ∈ dedupe l ↔ x ∈ l := by
  simp [dedupe, mem_dedupeAux]

theorem dedupeAux_nodup {α : Type} [DecidableEq α] :
    ∀ (l seen : List α), (dedupeAux seen l).Nodup := by
  intro l
  induction l with
  | nil => intro seen; simp [dedupeAux]
  | cons a t ih =>
    intro seen
    by_cases ha : a ∈ seen
    · simpa [dedupeAux, if_pos ha] using ih seen
    · simp only [dedupeAux, if_neg ha, List.nodup_cons]
      refine ⟨fun hmem => ?_, ih (a :: seen)⟩
      exact ((mem_dedupeAux a t (a :: seen)).mp hmem).2 (List.mem_cons_self a seen)

theorem dedupe_nodup {α : Type} [DecidableEq α] (l : List α) : (dedupe l).Nodup :=
  dedupeAux_nodup l []

theorem dedupeAux_eq_self {α : Type} [DecidableEq α] :
    ∀ (l seen : List α), l.Nodup → (∀ x ∈ l, x ∉ seen) → dedupeAux seen l = l := by
  intro l
  induction l with
  | nil => intro seen _ _; rfl
  | cons a t ih =>
    intro seen hnd hdisj
    have ha : a ∉ seen := hdisj a (List.mem_cons_self a t)
    simp only [dedupeAux, if_neg ha]
    have hnd' := (List.nodup_cons.mp hnd)
    refine congrArg (a :: ·) (ih (a :: seen) hnd'.2 ?_)
    intro x hx
    intro hmem
    rcases List.mem_cons.mp hmem with rfl | hmem
    · exact hnd'.1 hx
    · exact hdisj x (List.mem_cons_of_mem _ hx) hmem

theorem dedupe_eq_self_of_nodup {α : Type} [DecidableEq α] {l : List α}
    (h : l.Nodup) : dedupe l = l :=
  dedupeAux_eq_self l [] h (by simp)

theorem dedupe_idem {α : Type} [DecidableEq α] (l : List α) :
    dedupe (dedupe l) = dedupe l :=
  dedupe_eq_self_of_nodup (dedupe_nodup l)

theorem dropWhile_dropWhile {α : Type} (p : α → Bool) (l : List α) :
    (l.dropWhile p).dropWhile p = l.dropWhile p := by
  induction l with
  | nil => rfl
  | cons a t ih =>
    by_cases ha : p a = true
    · simp [List.dropWhile, ha, ih]
    · simp [List.dropWhile, ha]

theorem head_not_of_dropWhile {α : Type} (p : α → Bool) (l : List α) :
    ∀ a, (l.dropWhile p).head? = some a → p a = false := by
  induction l with
  | nil => intro a h; simp [List.dropWhile] at h
  | cons b t ih =>
    intro a h
    by_cases hb : p b = true
    · exact ih a (by simpa [List.dropWhile, hb] using h)
    · simp [List.dropWhile, hb] at h
      simp [← h, Bool.not_eq_true] at hb ⊢
      exact hb

theorem dropWhile_of_head_not {α : Type} (p : α → Bool) (l : List α)
    (h : ∀ a, l.head? = some a → p a = false) : l.dropWhile p = l := by
  cases l with
  | nil => rfl
  | cons a t => simp [List.dropWhile, h a rfl]

theorem jsTrimStart_idem (s : Str) : jsTrimStart (jsTrimStart s) = jsTrimStart s :=
  dropWhile_dropWhile _ s

theorem jsTrimEnd_idem (s : Str) : jsTrimEnd (jsTrimEnd s) = jsTrimEnd s := by
  simp [jsTrimEnd, List.reverse_reverse, dropWhile_dropWhile]

/-- jsTrimEnd keeps a prefix of the string. -/
theorem jsTrimEnd_isPrefix (s : Str) : ∃ t, s = jsTrimEnd s ++ t := by
  have h : s.reverse.dropWhile jsIsWs <:+ s.reverse := List.dropWhile_suffix _
  obtain ⟨u, hu⟩ := h
  refine ⟨u.reverse, ?_⟩
  have := congrArg List.reverse hu
  simpa [jsTrimEnd] using this.symm

theorem head?_of_append_ne_nil {α : Type} (a b : List α) (h : a ≠ []) :
    (a ++ b).head? = a.head? := by
  cases a with
  | nil => exact absurd rfl h
  | cons x t => rfl

/-- The head of a trimmed-start string is not whitespace. -/
theorem jsTrimStart_head (s : Str) :
    ∀ a, (jsTrimStart s).head? = some a → jsIsWs a = false :=
  head_not_of_dropWhile _ s

theorem jsTrim_idem (s : Str) : jsTrim (jsTrim s) = jsTrim s := by
  unfold jsTrim
  have hstep : jsTrimStart (jsTrimEnd (jsTrimStart s)) = jsTrimEnd (jsTrimStart s) := by
    apply dropWhile_of_head_not
    intro a ha
    rcases jsTrimEnd_isPrefix (jsTrimStart s) with ⟨t, ht⟩
    have hne : jsTrimEnd (jsTrimStart s) ≠ [] := by
      intro hnil
      rw [hnil] at ha
      simp at ha
    have : (jsTrimStart s).head? = some a := by
      rw [ht, head?_of_append_ne_nil _ _ hne, ha]
    exact jsTrimStart_head s a this
  rw [hstep, jsTrimEnd_idem]

/-- Splitting a list at the unique occurrence of an element. -/
theorem unique_occurrence_split {α : Type} {x : α} :
    ∀ (A : List α) (B u v : List α), x ∉ A → x ∉ B →
      A ++ x :: B = u ++ x :: v → u = A ∧ v = B := by
  intro A
  induction A with
  | nil =>
    intro B u v _ hB h
    cases u with
    | nil =>
      refine ⟨rfl, ?_⟩
      simpa using h.symm
    | cons b u2 =>
      simp only [List.nil_append, List.cons_append, List.cons.injEq] at h
      obtain ⟨rfl, h2⟩ := h
      exact absurd (h2 ▸ List.mem_append_right u2 (List.mem_cons_self _ _)) hB
  | cons a A2 ih =>
    intro B u v hA hB h
    cases u with
    | nil =>
      simp only [List.nil_append, List.cons_append, List.cons.injEq] at h
      obtain ⟨rfl, _⟩ := h
      exact absurd (List.mem_cons_self _ _) hA
    | cons b u2 =>
      simp only [List.cons_append, List.cons.injEq] at h
      obtain ⟨rfl, h2⟩ := h
      have := ih B u2 v (fun hm => hA (List.mem_cons_of_mem _ hm)) hB h2
      exact ⟨by rw [this.1], this.2⟩

theorem strictEqJV_bool_true_iff (x : JSVal) :
    strictEqJV x (some (.bool true)) = true ↔ x = some (.bool true) := by
  cases x with
  | none => simp [strictEqJV]
  | some v =>
    cases v <;> simp [strictEqJV, strictEqPrim]

/-! ## Claim C1 — SSE framing of POST /api/mcp/chat/stream -/

/-- C1 (counterexample): on the success path the stream does not end in the
done frame — runOutputAgentStream emits its closing a2a output.done
notification through the endpoint's emit after writing done, so for a
request whose orchestration emitted no events and whose answer is empty
the frames are a2a(output.request), final, done, a2a(output.done): the
last frame is a2a, not done. -/
theorem c1_counterexample :
    streamEndpointSuccessFrames 0 [] =
      [SSEFrame.a2a, SSEFrame.final, SSEFrame.done, SSEFrame.a2a] ∧
    (streamEndpointSuccessFrames 0 []).getLast? ≠ some SSEFrame.done := by
  decide

/-- C1 (amended): on both paths the stream carries exactly one done frame
and no delta frame follows the final frame; on the error path done is the
last frame, while on the success path the done frame is followed by
exactly one trailing a2a frame (the output-agent's output.done
notification) and nothing else. -/
theorem c1_stream_framing (n : Nat) (answer : Str) :
    ((streamEndpointSuccessFrames n answer).count SSEFrame.done = 1 ∧
      (∀ u v, streamEndpointSuccessFrames n answer = u ++ SSEFrame.final :: v →
        SSEFrame.delta ∉ v) ∧
      (∀ u v, streamEndpointSuccessFrames n answer = u ++ SSEFrame.done :: v →
        v = [SSEFrame.a2a])) ∧
    ((streamEndpointErrorFrames n).count SSEFrame.done = 1 ∧
      SSEFrame.delta ∉ streamEndpointErrorFrames n ∧
      (∀ u v, streamEndpointErrorFrames n = u ++ SSEFrame.done :: v → v = [])) := by
  have hshape : streamEndpointSuccessFrames n answer =
      (List.replicate n SSEFrame.a2a ++ SSEFrame.a2a :: streamTextFrames answer) ++
        SSEFrame.final :: [SSEFrame.done, SSEFrame.a2a] := by
    simp [streamEndpointSuccessFrames, runOutputAgentStreamFrames]
  have hdelta_only : ∀ x ∈ streamTextFrames answer, x = SSEFrame.delta := by
    intro x hx
    unfold streamTextFrames at hx
    split at hx
    · simp at hx
    · rcases List.mem_map.mp hx with ⟨c, _, rfl⟩
      rfl
  have hA : SSEFrame.final ∉
      List.replicate n SSEFrame.a2a ++ SSEFrame.a2a :: streamTextFrames answer := by
    intro hmem
    rcases List.mem_append.mp hmem with h | h
    · exact absurd (List.eq_of_mem_replicate h) (by decide)
    · rcases List.mem_cons.mp h with h | h
      · exact absurd h (by decide)
      · exact absurd (hdelta_only _ h) (by decide)
  have hdone_notA : SSEFrame.done ∉
      (List.replicate n SSEFrame.a2a ++ SSEFrame.a2a :: streamTextFrames answer) ++
        [SSEFrame.final] := by
    intro hmem
    rcases List.mem_append.mp hmem with h | h
    · rcases List.mem_append.mp h with h | h
      · exact absurd (List.eq_of_mem_replicate h) (by decide)
      · rcases List.mem_cons.mp h with h | h
        · exact absurd h (by decide)
        · exact absurd (hdelta_only _ h) (by decide)
    · simp at h
  refine ⟨⟨?_, ?_, ?_⟩, ?_, ?_, ?_⟩
  · rw [hshape]
    simp only [List.count_append, List.count_cons, List.count_replicate]
    have h0 : (streamTextFrames answer).count SSEFrame.done = 0 := by
      rw [List.count_eq_zero]
      intro hmem
      exact absurd (hdelta_only _ hmem) (by decide)
    simp [h0]
  · intro u v h
    rw [hshape] at h
    have := unique_occurrence_split _ [SSEFrame.done, SSEFrame.a2a] u v hA
      (by decide) h
    rw [this.2]
    decide
  · intro u v h
    rw [hshape] at h
    have h2 : ((List.replicate n SSEFrame.a2a ++
        SSEFrame.a2a :: streamTextFrames answer) ++ [SSEFrame.final]) ++
        SSEFrame.done :: [SSEFrame.a2a] = u ++ SSEFrame.done :: v := by
      simpa using h
    exact (unique_occurrence_split _ [SSEFrame.a2a] u v hdone_notA (by decide) h2).2
  · simp [streamEndpointErrorFrames, List.count_append, List.count_replicate,
      List.count_cons]
  · intro hmem
    rcases List.mem_append.mp hmem with h | h
    · exact absurd (List.eq_of_mem_replicate h) (by decide)
    · simp at h
  · intro u v h
    unfold streamEndpointErrorFrames at h
    have h2 : (List.replicate n SSEFrame.a2a ++ [SSEFrame.error]) ++
        SSEFrame.done :: [] = u ++ SSEFrame.done :: v := by
      simpa using h
    refine (unique_occurrence_split _ [] u v ?_ (by decide) h2).2
    intro hmem
    rcases List.mem_append.mp hmem with h | h
    · exact absurd (List.eq_of_mem_replicate h) (by decide)
    · simp at h

/-! ## Claim C3 — writer/evaluator pipeline shape -/

/-- C3: the pipeline drafts once and evaluates once; a second draft
(seeded with the first evaluation's feedback) and a second evaluation
happen exactly when the first evaluation has pass false; the returned
response is the latest draft paired with the latest evaluation, so each
agent is invoked at most twice. -/
theorem c3_writer_evaluator_pipeline (resp : AgentResponse) (w1 w2 : Str)
    (e1 e2 : Option JsonVal) :
    (runWriterEvaluationPipelineTraced resp w1 w2 e1 e2).response =
        (runWriterEvaluationPipeline resp w1 w2 e1 e2).response ∧
    (runWriterEvaluationPipelineTraced resp w1 w2 e1 e2).evaluation =
        (runWriterEvaluationPipeline resp w1 w2 e1 e2).evaluation ∧
    (runWriterEvaluationPipelineTraced resp w1 w2 e1 e2).writerCalls =
        (if (parseEvaluatorReply e1).pass then 1 else 2) ∧
    (runWriterEvaluationPipelineTraced resp w1 w2 e1 e2).evaluatorCalls =
        (runWriterEvaluationPipelineTraced resp w1 w2 e1 e2).writerCalls ∧
    (runWriterEvaluationPipelineTraced resp w1 w2 e1 e2).writerCalls ≤ 2 ∧
    (runWriterEvaluationPipelineTraced resp w1 w2 e1 e2).secondWriterFeedback =
        (if (parseEvaluatorReply e1).pass then none
          else some (parseEvaluatorReply e1).feedback) ∧
    (runWriterEvaluationPipelineTraced resp w1 w2 e1 e2).response =
        (if (parseEvaluatorReply e1).pass then runWriterAgent resp w1
          else runWriterAgent (runWriterAgent resp w1) w2) ∧
    (runWriterEvaluationPipelineTraced resp w1 w2 e1 e2).evaluation =
        (if (parseEvaluatorReply e1).pass then parseEvaluatorReply e1
          else parseEvaluatorReply e2) := by
  by_cases hp : (parseEvaluatorReply e1).pass
  · simp [runWriterEvaluationPipelineTraced, runWriterEvaluationPipeline, hp]
  · simp [runWriterEvaluationPipelineTraced, runWriterEvaluationPipeline, hp]

/-! ## Claim C4 — evaluator qualityCheck parsing -/

/-- C4 (counterexample): a well-formed evaluator reply with score 150 is
taken verbatim — the source never clamps the score to [0, 100], so the
claimed invariant score ∈ [0,100] fails. -/
theorem c4_counterexample :
    (parseEvaluatorReply (some (jObj [(sPass, .bool true),
        (sScore, .num 150), (sFeedback, .str [])]))).score = 150 ∧
    ¬((0:Int) ≤ (parseEvaluatorReply (some (jObj [(sPass, .bool true),
        (sScore, .num 150), (sFeedback, .str [])]))).score ∧
      (parseEvaluatorReply (some (jObj [(sPass, .bool true),
        (sScore, .num 150), (sFeedback, .str [])]))).score ≤ 100) := by
  decide

/-- C4 (amended): pass is always a boolean; a reply that fails to parse as
JSON (or does not parse to an object) yields the default
pass=true, score=80, feedback="" quality check; any score other than the
default 80 is the evaluator's own numeric score taken verbatim (no
clamping to [0,100]), and pass is false only when the reply carries the
literal pass: false. -/
theorem c4_evaluator_parse (reply : Option JsonVal) :
    (reply = none → parseEvaluatorReply reply = defaultQualityCheck) ∧
    (∀ v, reply = some v → (truthy v && isObjLike v) = false →
      parseEvaluatorReply reply = defaultQualityCheck) ∧
    ((parseEvaluatorReply reply).score ≠ 80 →
      ∃ v, reply = some v ∧
        getField v (sScore) = some (.num (parseEvaluatorReply reply).score)) ∧
    ((parseEvaluatorReply reply).pass = false →
      ∃ v, reply = some v ∧ getField v (sPass) = some (.bool false)) := by
  refine ⟨?_, ?_, ?_, ?_⟩
  · rintro rfl; rfl
  · rintro v rfl hv
    simp [parseEvaluatorReply, hv]
  · intro hs
    cases reply with
    | none => exact absurd rfl hs
    | some v =>
      refine ⟨v, rfl, ?_⟩
      cases hb : (truthy v && isObjLike v) with
      | false =>
        simp only [parseEvaluatorReply] at hs
        rw [hb] at hs
        simp [defaultQualityCheck] at hs
      | true =>
        simp only [parseEvaluatorReply] at hs ⊢
        rw [hb] at hs ⊢
        simp only [eq_self_iff_true, if_true] at hs ⊢
        rcases hg : getField v sScore with _ | w
        · rw [hg] at hs
          simp at hs
        · rw [hg] at hs
          cases w <;> simp at hs ⊢
  · intro hp
    cases reply with
    | none => simp [parseEvaluatorReply, defaultQualityCheck] at hp
    | some v =>
      refine ⟨v, rfl, ?_⟩
      cases hb : (truthy v && isObjLike v) with
      | false =>
        simp only [parseEvaluatorReply] at hp
        rw [hb] at hp
        simp [defaultQualityCheck] at hp
      | true =>
        simp only [parseEvaluatorReply] at hp
        rw [hb] at hp
        simp only [eq_self_iff_true, if_true] at hp
        rcases hg : getField v sPass with _ | w
        · rw [hg] at hp
          simp [strictEqJV] at hp
        · rw [hg] at hp
          cases w <;> simp [strictEqJV, strictEqPrim] at hp ⊢
          case bool b => cases b <;> simp_all

/-- C4 witness: the amended theorem applied at a concrete reply carrying
score 150 — the non-default score came verbatim from the reply. -/
theorem c4_witness :
    ∃ v, (some (jObj [(sScore, JsonVal.num 150)]) : Option JsonVal) = some v ∧
      getField v (sScore) = some (.num (parseEvaluatorReply
        (some (jObj [(sScore, JsonVal.num 150)]))).score) :=
  (c4_evaluator_parse (some (jObj [(sScore, JsonVal.num 150)]))).2.2.1
    (by decide)

/-! ## Claim C10 — GitHub-PR readiness evaluation -/

/-- C10: evaluateGitHubPRReadiness returns canProceed true exactly when
the sync response parses to an object payload whose is_clean and
ready_for_pr fields are both the literal true; in every other case it
returns canProceed false with a non-empty reason, so ready_for_pr alone
never marks the workflow ready. -/
theorem c10_github_pr_readiness (jp : Str → Option JsonVal) (resp : AgentResponse) :
    ((evaluateGitHubPRReadiness jp resp).canProceed = true ↔
      ∃ fs, parseSyncStatusPayload jp resp = some (.obj fs) ∧
        objGet fs.toFields (sIsClean) = some (.bool true) ∧
        objGet fs.toFields (sReadyForPr) = some (.bool true)) ∧
    ((evaluateGitHubPRReadiness jp resp).canProceed = false →
      (evaluateGitHubPRReadiness jp resp).reason ≠ []) := by
  have hobj : ∀ p, parseSyncStatusPayload jp resp = some p → ∃ fs, p = .obj fs := by
    intro p hp
    unfold parseSyncStatusPayload at hp
    rcases hr : resp.result with _ | v
    · rw [hr] at hp
      rcases ha : resp.answer with _ | w
      · simp [ha] at hp
      · cases w <;> simp [ha] at hp
        case str s =>
          rcases hj : jp s with _ | u
          · simp [hj] at hp
          · cases u <;> simp [hj] at hp
            case obj fs => exact ⟨fs, hp.symm⟩
    · rw [hr] at hp
      cases v <;> simp at hp
      case obj fs => exact ⟨fs, hp.symm⟩
      all_goals {
        rcases ha : resp.answer with _ | w
        · simp [ha] at hp
        · cases w <;> simp [ha] at hp
          case str s =>
            rcases hj : jp s with _ | u
            · simp [hj] at hp
            · cases u <;> simp [hj] at hp
              case obj fs => exact ⟨fs, hp.symm⟩ }
  constructor
  · constructor
    · intro hcp
      unfold evaluateGitHubPRReadiness at hcp
      rcases hp : parseSyncStatusPayload jp resp with _ | p
      · simp [hp] at hcp
      · obtain ⟨fs, rfl⟩ := hobj p hp
        refine ⟨fs, rfl, ?_, ?_⟩
        · simp only [hp] at hcp
          cases h1 : strictEqJV (getField (JsonVal.obj fs) (sIsClean))
              (some (.bool true)) with
          | false => simp [h1] at hcp
          | true => exact (strictEqJV_bool_true_iff _).mp (by simpa [getField] using h1)
        · simp only [hp] at hcp
          cases h2 : strictEqJV (getField (JsonVal.obj fs) (sReadyForPr))
              (some (.bool true)) with
          | false => simp [h2] at hcp
          | true => exact (strictEqJV_bool_true_iff _).mp (by simpa [getField] using h2)
    · rintro ⟨fs, hp, h1, h2⟩
      unfold evaluateGitHubPRReadiness
      rw [hp]
      have e1 : strictEqJV (getField (.obj fs) (sIsClean))
          (some (.bool true)) = true := (strictEqJV_bool_true_iff _).mpr (by simpa [getField])
      have e2 : strictEqJV (getField (.obj fs) (sReadyForPr))
          (some (.bool true)) = true := (strictEqJV_bool_true_iff _).mpr (by simpa [getField])
      simp [e1, e2]
  · intro hcp
    unfold evaluateGitHubPRReadiness at hcp ⊢
    rcases hp : parseSyncStatusPayload jp resp with _ | p
    · simp [msgSyncParseFailed]
    · simp only [hp] at hcp ⊢
      by_cases h12 : (!strictEqJV (getField p (sIsClean)) (some (.bool true)) ||
          !strictEqJV (getField p (sReadyForPr)) (some (.bool true))) = true
      · simp only [h12, if_true]
        simp [msgWorkspaceNotReady]
      · simp [h12] at hcp

/-- C10 witness: a concrete sync response whose result object has both
flags true is evaluated as ready. -/
theorem c10_witness :
    (evaluateGitHubPRReadiness (fun _ => none)
      { answer := none, result := some (jObj [(sIsClean, .bool true),
          (sReadyForPr, .bool true)]),
        requiresInput := none, missing := none, mcpStatus := none }).canProceed = true :=
  (c10_github_pr_readiness (fun _ => none)
    { answer := none, result := some (jObj [(sIsClean, .bool true),
        (sReadyForPr, .bool true)]),
      requiresInput := none, missing := none, mcpStatus := none }).1.mpr
    ⟨JsonObj.ofFields [(sIsClean, .bool true),
        (sReadyForPr, .bool true)], by decide, by decide, by decide⟩

/-- C1 witness: the amended framing theorem applied at a concrete stream
(no orchestration events, empty answer) and its concrete final/done
decomposition. -/
theorem c1_witness : SSEFrame.delta ∉ [SSEFrame.done, SSEFrame.a2a] :=
  (c1_stream_framing 0 []).1.2.1 [SSEFrame.a2a] [SSEFrame.done, SSEFrame.a2a]
    (by decide)

/-! ## Claim C9 — idempotence of path normalisation -/

/-- Feeding a normalisation result (a JS array of strings) back into
normalizePathInput, as the idempotence round-trip does. -/
def normalizePathInputTwice (v : JsonVal) : List Str :=
  normalizePathInput (jArr ((normalizePathInput v).map JsonVal.str))

theorem normalizePathInput_on_strings (l : List Str) :
    normalizePathInput (jArr (l.map JsonVal.str)) =
      dedupe ((l.map jsTrim).filter (fun s => s ≠ [])) := by
  simp only [normalizePathInput, jArr, JsonArr.toList_ofList, List.map_map]
  have hmap : List.map ((fun it => jsTrim (jsToString it)) ∘ JsonVal.str) l =
      List.map jsTrim l :=
    List.map_congr_left (fun s _ => by simp [Function.comp, jsToString])
  rw [hmap]

theorem normalizePathInput_strings_idem (l : List Str) :
    normalizePathInput (jArr ((normalizePathInput (jArr (l.map JsonVal.str))).map
      JsonVal.str)) = normalizePathInput (jArr (l.map JsonVal.str)) := by
  rw [normalizePathInput_on_strings, normalizePathInput_on_strings]
  set D := dedupe ((l.map jsTrim).filter (fun s => s ≠ [])) with hD
  have hmem : ∀ x ∈ D, jsTrim x = x ∧ x ≠ [] := by
    intro x hx
    have hx2 := (mem_dedupe x _).mp hx
    have hfil := List.mem_filter.mp hx2
    rcases List.mem_map.mp hfil.1 with ⟨y, _, rfl⟩
    exact ⟨jsTrim_idem y, by simpa using hfil.2⟩
  have hmap : D.map jsTrim = D := by
    have : D.map jsTrim = D.map id := by
      apply List.map_congr_left
      intro x hx
      exact (hmem x hx).1
    simpa using this
  rw [hmap]
  have hfilter : D.filter (fun s => s ≠ []) = D := by
    rw [List.filter_eq_self]
    intro x hx
    simpa using (hmem x hx).2
  rw [hfilter]
  exact dedupe_eq_self_of_nodup (dedupe_nodup _)

/-- C9 (counterexample): normalisation is not idempotent.  For the string
made of a tab and a backslash, the extraction regex finds nothing and the
split regex class [;,\\n] (which splits on backslashes and the letter n)
leaves no tokens, so the source falls back to the single-element array
holding the original, untrimmed input; the bare-backslash trimmed form
passes the path-hint test /[\\/]/, so the untrimmed string is returned,
and a second normalisation trims it. -/
theorem c9_counterexample :
    normalizePathInput (.str "\t\\".toList) = ["\t\\".toList] ∧
    normalizePathInputTwice (.str "\t\\".toList) = ["\\".toList] ∧
    normalizePathInputTwice (.str "\t\\".toList) ≠
      normalizePathInput (.str "\t\\".toList) := by
  refine ⟨by decide, by decide, ?_⟩
  intro h
  have h2 : (["\\".toList] : List Str) = ["\t\\".toList] := by
    calc (["\\".toList] : List Str)
        = normalizePathInputTwice (.str "\t\\".toList) := by decide
      _ = normalizePathInput (.str "\t\\".toList) := h
      _ = ["\t\\".toList] := by decide
  exact absurd h2 (by decide)

/-- C9 (amended): path normalisation is idempotent on every array of
strings; for string inputs the untrimmed-fallback case above can make the
second application differ from the first, but the normaliser is idempotent
from the second application on: a third application never changes the
result, for any input value. -/
theorem c9_normalize_idempotence (l : List Str) (v : JsonVal) :
    normalizePathInputTwice (jArr (l.map JsonVal.str)) =
      normalizePathInput (jArr (l.map JsonVal.str)) ∧
    normalizePathInput (jArr ((normalizePathInputTwice v).map JsonVal.str)) =
      normalizePathInputTwice v := by
  constructor
  · exact normalizePathInput_strings_idem l
  · exact normalizePathInput_strings_idem (normalizePathInput v)

/-! ## Claim C7 — tool-spec merge -/

theorem strictEqJV_str_iff (x : JSVal) (s : Str) :
    strictEqJV x (some (.str s)) = true ↔ x = some (.str s) := by
  cases x with
  | none => simp [strictEqJV]
  | some v =>
    cases v <;> simp [strictEqJV, strictEqPrim]

theorem assocGet_map_overwrite_self {β : Type} (k : Str) (v : β) :
    ∀ (m : List (Str × β)), m.any (fun p => p.1 = k) = true →
      assocGet (m.map (fun p => if p.1 = k then (k, v) else p)) k = some v := by
  intro m
  induction m with
  | nil => intro h; simp at h
  | cons a t ih =>
    intro h
    obtain ⟨k1, v1⟩ := a
    by_cases h1 : k1 = k
    · subst h1
      have hstep : (if ((k1, v1) : Str × β).1 = k1 then (k1, v) else (k1, v1)) =
          (k1, v) := if_pos rfl
      rw [List.map_cons, hstep]
      simp [assocGet]
    · have hstep : (if ((k1, v1) : Str × β).1 = k then (k, v) else (k1, v1)) =
          (k1, v1) := if_neg h1
      rw [List.map_cons, hstep]
      simp only [assocGet, if_neg h1]
      apply ih
      rw [List.any_cons] at h
      rcases (Bool.or_eq_true _ _).mp h with hc | hc
      · exact absurd (of_decide_eq_true hc) h1
      · exact hc

theorem assocGet_map_overwrite_other {β : Type} (k : Str) (v : β) (k2 : Str)
    (hne : k2 ≠ k) :
    ∀ (m : List (Str × β)),
      assocGet (m.map (fun p => if p.1 = k then (k, v) else p)) k2 = assocGet m k2 := by
  intro m
  induction m with
  | nil => rfl
  | cons a t ih =>
    obtain ⟨k1, v1⟩ := a
    by_cases h1 : k1 = k
    · subst h1
      have hstep : (if ((k1, v1) : Str × β).1 = k1 then (k1, v) else (k1, v1)) =
          (k1, v) := if_pos rfl
      rw [List.map_cons, hstep]
      simp only [assocGet, if_neg (fun he => hne (Eq.symm he))]
      exact ih
    · have hstep : (if ((k1, v1) : Str × β).1 = k then (k, v) else (k1, v1)) =
          (k1, v1) := if_neg h1
      rw [List.map_cons, hstep]
      by_cases h2 : k1 = k2
      · simp [assocGet, h2]
      · simp only [assocGet, if_neg h2]
        exact ih

theorem assocGet_eq_none_of_not_any {β : Type} (k : Str) :
    ∀ (m : List (Str × β)), m.any (fun p => p.1 = k) = false → assocGet m k = none := by
  intro m
  induction m with
  | nil => intro _; rfl
  | cons a t ih =>
    intro h
    obtain ⟨k1, v1⟩ := a
    simp only [List.any_cons, Bool.or_eq_false_iff, decide_eq_false_iff_not] at h
    simp only [assocGet, if_neg h.1]
    exact ih h.2

theorem assocGet_append {β : Type} (k : Str) :
    ∀ (m l : List (Str × β)),
      assocGet (m ++ l) k =
        match assocGet m k with
        | some v => some v
        | none => assocGet l k := by
  intro m l
  induction m with
  | nil => rfl
  | cons a t ih =>
    obtain ⟨k1, v1⟩ := a
    by_cases h1 : k1 = k
    · simp [assocGet, h1]
    · simpa [assocGet, h1] using ih

theorem assocGet_assocSet {β : Type} (m : List (Str × β)) (k : Str) (v : β)
    (k2 : Str) :
    assocGet (assocSet m k v) k2 = if k2 = k then some v else assocGet m k2 := by
  unfold assocSet
  by_cases hany : m.any (fun p => p.1 = k) = true
  · simp only [hany, if_true]
    by_cases hk2 : k2 = k
    · rw [hk2, assocGet_map_overwrite_self k v m hany]
      simp
    · rw [assocGet_map_overwrite_other k v k2 hk2 m]
      simp [hk2]
  · have hany2 : m.any (fun p => p.1 = k) = false := by
      revert hany; cases m.any (fun p => p.1 = k) <;> simp
    simp only [hany2, Bool.false_eq_true, if_false]
    rw [assocGet_append]
    by_cases hk2 : k2 = k
    · subst hk2
      rw [assocGet_eq_none_of_not_any k2 m hany2]
      simp [assocGet]
    · cases hm : assocGet m k2 with
      | some w => simp [hk2]
      | none =>
        have hne2 : ¬ k = k2 := fun he => hk2 (Eq.symm he)
        simp [assocGet, hk2, hne2]

/-- Insertion step of the enriched-name map of mergeToolSpecs. -/
def enrichedIns (m : List (Str × JsonVal)) (t : JsonVal) : List (Str × JsonVal) :=
  if truthy t then
    match getField t sName with
    | some (.str n) => assocSet m n t
    | _ => m
  else m

/-- The per-manifest-tool merge of mergeToolSpecs, parameterised by the
name lookup: a falsy or nameless base entry is returned as is; a named one
is overridden by the looked-up entry via
left brace ...tool, ...enriched, inputSchema: shallow merge right brace. -/
def mergeOneWith (lookup : Str → Option JsonVal) (t : JsonVal) : JsonVal :=
  if !(truthy t) then t
  else
    match getField t sName with
    | some (.str n) =>
        (match lookup n with
          | none => t
          | some e => spreadMergeTool t e)
    | _ => t

/-- The append filter of mergeToolSpecs: tools/list entries carrying a
string name absent from existingNames (computed once, before the pushes). -/
def appendedEnriched (existingNames : List JSVal) (enrichedTools : List JsonVal) :
    List JsonVal :=
  enrichedTools.filter (fun e =>
    truthy e &&
      (match getField e sName with
        | some (.str n) => !(existingNames.any (fun x => strictEqJV x (some (.str n))))
        | _ => false))

/-- src/server/index.js, mergeToolSpecs (lines 2038-2074): manifest tools
(base) enriched via a name-keyed map built from the tools/list entries,
then unmatched tools/list entries appended. -/
def mergeToolSpecs (baseTools enrichedTools : List JsonVal) : List JsonVal :=
  let enrichedMap := enrichedTools.foldl enrichedIns []
  let merged := baseTools.map (mergeOneWith (assocGet enrichedMap))
  let existingNames := merged.map (fun t => getField t sName)
  merged ++ appendedEnriched existingNames enrichedTools

/-- Written from the specification text (amended for C7): for each
manifest tool, an entry without a string name is kept unchanged (not
dropped); a named entry is overridden by the last same-named tools/list
entry, with inputSchema shallow-merged; tools/list entries whose string
name is absent from the merged manifest entries are appended, and
tools/list entries without a string name are dropped. -/
def mergeToolSpecsSpec (baseTools enrichedTools : List JsonVal) : List JsonVal :=
  let lastNamed := fun (n : Str) =>
    (enrichedTools.filter (fun e =>
      truthy e && strictEqJV (getField e sName) (some (.str n)))).getLast?
  let merged := baseTools.map (mergeOneWith lastNamed)
  merged ++ appendedEnriched (merged.map (fun t => getField t sName)) enrichedTools

/-- The entry chosen for a name by the enriched map is the last enriched
tool carrying that name. -/
theorem enrichedMap_lookup (enr : List JsonVal) :
    ∀ (m : List (Str × JsonVal)) (n : Str),
      assocGet (enr.foldl enrichedIns m) n =
        match (enr.filter (fun e =>
            truthy e && strictEqJV (getField e sName) (some (.str n)))).getLast? with
        | some e => some e
        | none => assocGet m n := by
  induction enr with
  | nil => intro m n; simp
  | cons t rest ih =>
    intro m n
    rw [List.foldl_cons, ih (enrichedIns m t) n]
    by_cases hp : (truthy t && strictEqJV (getField t sName) (some (.str n))) = true
    · simp only [List.filter_cons, hp, if_true]
      rcases hrest : (rest.filter (fun e =>
          truthy e && strictEqJV (getField e sName) (some (.str n)))).getLast? with _ | e
      · have hnil : rest.filter (fun e =>
            truthy e && strictEqJV (getField e sName) (some (.str n))) = [] := by
          cases hl : rest.filter (fun e =>
              truthy e && strictEqJV (getField e sName) (some (.str n))) with
          | nil => rfl
          | cons x xs =>
            rw [hl] at hrest
            cases xs <;> simp [List.getLast?] at hrest
        rw [hnil]
        show assocGet (enrichedIns m t) n = some t
        rw [Bool.and_eq_true] at hp
        obtain ⟨ht, hn⟩ := hp
        have hname := (strictEqJV_str_iff _ _).mp hn
        unfold enrichedIns
        rw [if_pos ht, hname, assocGet_assocSet]
        simp
      · cases hl : rest.filter (fun e =>
            truthy e && strictEqJV (getField e sName) (some (.str n))) with
        | nil => rw [hl] at hrest; simp [List.getLast?] at hrest
        | cons x xs =>
          rw [hl] at hrest
          rw [List.getLast?_cons_cons, hrest]
    · simp only [List.filter_cons, hp, Bool.false_eq_true, if_false]
      have hins : assocGet (enrichedIns m t) n = assocGet m n := by
        unfold enrichedIns
        by_cases ht : truthy t = true
        · rw [if_pos ht]
          rcases hg : getField t sName with _ | w
          · rfl
          · cases w with
            | str n2 =>
              rw [assocGet_assocSet]
              have hne : ¬ n = n2 := by
                intro he
                apply hp
                rw [ht, hg, he]
                simp [strictEqJV, strictEqPrim]
              rw [if_neg hne]
            | num x => rfl
            | bool b => rfl
            | null => rfl
            | arr xs => rfl
            | obj fs => rfl
        · rw [if_neg ht]
      rcases (rest.filter (fun e =>
          truthy e && strictEqJV (getField e sName) (some (.str n)))).getLast? with _ | e
      · exact hins
      · rfl

/-- C7 (counterexample): a manifest (base) entry without a name is kept in
the merged result, not dropped — merging a single nameless manifest tool
with an empty tools/list returns that entry unchanged. -/
theorem c7_counterexample :
    mergeToolSpecs [jObj [("description".toList, .str ("x".toList))]] [] =
      [jObj [("description".toList, .str ("x".toList))]] ∧
    getField (jObj [("description".toList, .str ("x".toList))]) sName = none := by
  constructor
  · rfl
  · rfl

/-- C7 (amended): mergeToolSpecs agrees with the specification-side
description in which, for each manifest tool, a same-named tools/list
entry (the last one, when names repeat) overrides its fields with the
inputSchema shallow-merged; tools/list entries whose names are absent from
the merged manifest entries are appended; tools/list entries without a
string name are dropped; and manifest entries without a string name are
kept unchanged (not dropped). -/
theorem c7_merge_spec (baseTools enrichedTools : List JsonVal) :
    mergeToolSpecs baseTools enrichedTools = mergeToolSpecsSpec baseTools enrichedTools := by
  unfold mergeToolSpecs mergeToolSpecsSpec
  have hfun : assocGet (enrichedTools.foldl enrichedIns []) = fun n =>
      (enrichedTools.filter (fun e =>
        truthy e && strictEqJV (getField e sName) (some (.str n)))).getLast? := by
    funext n
    rw [enrichedMap_lookup enrichedTools [] n]
    rcases (enrichedTools.filter (fun e =>
        truthy e && strictEqJV (getField e sName) (some (.str n)))).getLast? with _ | e
    · rfl
    · rfl
  simp only [hfun]


/-! ## Claim C8 — idempotence of argument sanitisation -/

theorem objGet_eq_assocGet (args : JsObj) (k : Str) : objGet args k = assocGet args k := by
  induction args with
  | nil => rfl
  | cons a t ih =>
    obtain ⟨k1, v⟩ := a
    simp only [objGet, assocGet, ih]

theorem objHas_eq_any (args : JsObj) (k : Str) :
    objHas args k = args.any (fun p => p.1 = k) := by
  induction args with
  | nil => rfl
  | cons a t ih =>
    obtain ⟨k1, v⟩ := a
    by_cases h : k1 = k
    · simp [objHas, h]
    · simp [objHas, h, ih]

theorem objSet_eq_assocSet (args : JsObj) (k : Str) (v : JsonVal) :
    objSet args k v = assocSet args k v := by
  unfold objSet assocSet
  rw [objHas_eq_any]

theorem objGet_objSet (args : JsObj) (k : Str) (v : JsonVal) (k2 : Str) :
    objGet (objSet args k v) k2 = if k2 = k then some v else objGet args k2 := by
  rw [objGet_eq_assocGet, objSet_eq_assocSet, assocGet_assocSet, objGet_eq_assocGet]

theorem objHas_eq_isSome (args : JsObj) (k : Str) :
    objHas args k = (objGet args k).isSome := by
  induction args with
  | nil => rfl
  | cons a t ih =>
    obtain ⟨k1, v⟩ := a
    by_cases h : k1 = k <;> simp [objHas, objGet, h, ih]

theorem objHas_objSet (args : JsObj) (k : Str) (v : JsonVal) (k2 : Str) :
    objHas (objSet args k v) k2 = (decide (k2 = k) || objHas args k2) := by
  rw [objHas_eq_isSome, objGet_objSet]
  by_cases h : k2 = k
  · simp [h]
  · simp [h, objHas_eq_isSome]

/-- Every value a sanitisation stage writes is an array or a string. -/
def stableVal (v : JsonVal) : Bool := isArr v || isStr v

/-- A property value sanPropStep leaves alone (when the property is not
array-typed): absent, null, an array, a string, or not string-typed. -/
def propStable (args : JsObj) (pe : Str × JsonVal) : Prop :=
  match objGet args pe.1 with
  | none => True
  | some v => v = JsonVal.null ∨ isArr v = true ∨ isStr v = true ∨
      ((propTypes pe.2).any (fun t => strictEqJV t (some (.str sString)))) = false

theorem stableVal_seedOf (p rq : Str) : stableVal (seedOf (.str p) (.str rq)) = true := by
  simp only [seedOf]
  split <;> rfl

theorem propStable_objSet (args : JsObj) (pe : Str × JsonVal) (k : Str) (v : JsonVal)
    (hv : stableVal v = true) (hst : propStable args pe) :
    propStable (objSet args k v) pe := by
  unfold propStable at hst ⊢
  rw [objGet_objSet]
  by_cases h : pe.1 = k
  · rw [if_pos h]
    unfold stableVal at hv
    rcases (Bool.or_eq_true _ _).mp hv with ha | hs
    · exact Or.inr (Or.inl ha)
    · exact Or.inr (Or.inr (Or.inl hs))
  · rw [if_neg h]
    exact hst

theorem sanPropStep_cases (args : JsObj) (pe : Str × JsonVal) :
    sanPropStep args pe = args ∨
    ∃ v, stableVal v = true ∧ sanPropStep args pe = objSet args pe.1 v := by
  unfold sanPropStep
  cases objGet args pe.1 with
  | none => exact Or.inl rfl
  | some v =>
    dsimp only
    by_cases hnull : v = JsonVal.null
    · rw [if_pos hnull]; exact Or.inl rfl
    · rw [if_neg hnull]
      cases ha : ((propTypes pe.2).any (fun t => strictEqJV t (some (.str sArray)))) with
      | true =>
        rw [if_pos rfl]
        exact Or.inr ⟨jArr ((normalizeArrayArgument v).map JsonVal.str), rfl, rfl⟩
      | false =>
        rw [if_neg Bool.false_ne_true]
        cases hs : (((propTypes pe.2).any (fun t => strictEqJV t (some (.str sString)))) &&
            !(isArr v) && !(isStr v)) with
        | true =>
          rw [if_pos rfl]
          exact Or.inr ⟨.str (jsToString v), rfl, rfl⟩
        | false =>
          rw [if_neg Bool.false_ne_true]
          exact Or.inl rfl

theorem sanPropStep_self_stable (args : JsObj) (pe : Str × JsonVal) :
    propStable (sanPropStep args pe) pe := by
  unfold sanPropStep
  cases hv : objGet args pe.1 with
  | none => unfold propStable; rw [hv]; trivial
  | some v =>
    dsimp only
    by_cases hnull : v = JsonVal.null
    · rw [if_pos hnull]
      unfold propStable; rw [hv]; exact Or.inl hnull
    · rw [if_neg hnull]
      cases ha : ((propTypes pe.2).any (fun t => strictEqJV t (some (.str sArray)))) with
      | true =>
        rw [if_pos rfl]
        unfold propStable
        rw [objGet_objSet, if_pos rfl]
        exact Or.inr (Or.inl rfl)
      | false =>
        rw [if_neg Bool.false_ne_true]
        cases hs : (((propTypes pe.2).any (fun t => strictEqJV t (some (.str sString)))) &&
            !(isArr v) && !(isStr v)) with
        | true =>
          rw [if_pos rfl]
          unfold propStable
          rw [objGet_objSet, if_pos rfl]
          exact Or.inr (Or.inr (Or.inl rfl))
        | false =>
          rw [if_neg Bool.false_ne_true]
          unfold propStable; rw [hv]
          cases hA : isArr v with
          | true => exact Or.inr (Or.inl hA)
          | false =>
            cases hS : isStr v with
            | true => exact Or.inr (Or.inr (Or.inl hS))
            | false =>
              cases hx : ((propTypes pe.2).any (fun t =>
                  strictEqJV t (some (.str sString)))) with
              | false => exact Or.inr (Or.inr (Or.inr rfl))
              | true => rw [hx, hA, hS] at hs; simp at hs

theorem sanPropStep_id (args : JsObj) (pe : Str × JsonVal)
    (hno : ((propTypes pe.2).any (fun t => strictEqJV t (some (.str sArray)))) = false)
    (hst : propStable args pe) : sanPropStep args pe = args := by
  unfold sanPropStep
  cases hv : objGet args pe.1 with
  | none => rfl
  | some v =>
    dsimp only
    unfold propStable at hst; rw [hv] at hst
    by_cases hnull : v = JsonVal.null
    · rw [if_pos hnull]
    · rw [if_neg hnull, if_neg (by rw [hno]; exact Bool.false_ne_true)]
      have hcond : (((propTypes pe.2).any (fun t => strictEqJV t (some (.str sString)))) &&
          !(isArr v) && !(isStr v)) = false := by
        rcases hst with h | h | h | h
        · exact absurd h hnull
        · rw [h]; simp
        · rw [h]; simp
        · rw [h]; simp
      rw [if_neg (by rw [hcond]; exact Bool.false_ne_true)]

theorem propStable_sanPropStep (args : JsObj) (pe2 pe : Str × JsonVal)
    (hst : propStable args pe) : propStable (sanPropStep args pe2) pe := by
  rcases sanPropStep_cases args pe2 with h | ⟨v, hv, h⟩
  · rw [h]; exact hst
  · rw [h]; exact propStable_objSet args pe pe2.1 v hv hst

theorem propStable_sanProps (pes : List (Str × JsonVal)) (args : JsObj)
    (pe : Str × JsonVal) (hst : propStable args pe) :
    propStable (sanProps pes args) pe := by
  induction pes generalizing args with
  | nil => exact hst
  | cons q rest ih => exact ih (sanPropStep args q) (propStable_sanPropStep args q pe hst)

theorem sanProps_post_stable (pes : List (Str × JsonVal)) (args : JsObj) :
    ∀ pe ∈ pes, propStable (sanProps pes args) pe := by
  induction pes generalizing args with
  | nil => intro pe h; exact absurd h (List.not_mem_nil pe)
  | cons q rest ih =>
    intro pe hmem
    rcases List.mem_cons.mp hmem with h | hmem2
    · subst h
      exact propStable_sanProps rest (sanPropStep args pe) pe (sanPropStep_self_stable args pe)
    · exact ih (sanPropStep args q) pe hmem2

theorem sanPropStep_preserves_str (args : JsObj) (pe : Str × JsonVal) (k s : Str)
    (hno : ((propTypes pe.2).any (fun t => strictEqJV t (some (.str sArray)))) = false)
    (hg : objGet args k = some (.str s)) :
    objGet (sanPropStep args pe) k = some (.str s) := by
  by_cases hk : pe.1 = k
  · have hg2 : objGet args pe.1 = some (.str s) := by rw [hk]; exact hg
    have hst : propStable args pe := by
      unfold propStable; rw [hg2]; exact Or.inr (Or.inr (Or.inl rfl))
    rw [sanPropStep_id args pe hno hst]
    exact hg
  · rcases sanPropStep_cases args pe with h | ⟨v, hv, h⟩
    · rw [h]; exact hg
    · rw [h, objGet_objSet, if_neg (fun he => hk he.symm)]
      exact hg

theorem sanProps_preserves_str (pes : List (Str × JsonVal)) (args : JsObj) (k s : Str)
    (hno : ∀ pe ∈ pes,
      ((propTypes pe.2).any (fun t => strictEqJV t (some (.str sArray)))) = false)
    (hg : objGet args k = some (.str s)) :
    objGet (sanProps pes args) k = some (.str s) := by
  induction pes generalizing args with
  | nil => exact hg
  | cons q rest ih =>
    exact ih (sanPropStep args q) (fun pe h => hno pe (List.mem_cons_of_mem q h))
      (sanPropStep_preserves_str args q k s (hno q (List.mem_cons_self q rest)) hg)

theorem foldl_fix {α β : Type} (f : β → α → β) (l : List α) (b : β)
    (h : ∀ a ∈ l, f b a = b) : l.foldl f b = b := by
  induction l with
  | nil => rfl
  | cons a t ih =>
    rw [List.foldl_cons, h a (List.mem_cons_self a t)]
    exact ih (fun x hx => h x (List.mem_cons_of_mem a hx))

theorem sanProps_id (pes : List (Str × JsonVal)) (args : JsObj)
    (hno : ∀ pe ∈ pes,
      ((propTypes pe.2).any (fun t => strictEqJV t (some (.str sArray)))) = false)
    (hst : ∀ pe ∈ pes, propStable args pe) :
    sanProps pes args = args :=
  foldl_fix sanPropStep pes args (fun pe h => sanPropStep_id args pe (hno pe h) (hst pe h))

theorem strictEqPrim_str_iff (x : JsonVal) (s : Str) :
    strictEqPrim x (.str s) = true ↔ x = .str s := by
  cases x <;> simp [strictEqPrim]

/-- The disjunction of the four required-key branch guards of sanReqStep. -/
def reqTrigger (keys : List Str) (rk : JsonVal) : Bool :=
  strictEqPrim rk (.str sOutputPath) ||
    (strictEqPrim rk (.str sPaths) ||
      (keys.any (fun k => strictEqPrim rk (.str k)) || isStr rk))

theorem sanReqStep_shape (dp keys : List Str) (seed : JsonVal) (acc : JsObj) (rk : JsonVal)
    (hseed : stableVal seed = true) :
    sanReqStep dp keys seed acc rk = acc ∨
    ∃ k v, stableVal v = true ∧ objHas acc k = false ∧
      sanReqStep dp keys seed acc rk = objSet acc k v := by
  unfold sanReqStep
  dsimp only
  by_cases hhas : objHas acc (jsToString rk) = true
  · rw [if_pos hhas]; exact Or.inl rfl
  · have hh : objHas acc (jsToString rk) = false := by
      revert hhas; cases objHas acc (jsToString rk) <;> simp
    rw [if_neg hhas]
    by_cases h1 : strictEqPrim rk (.str sOutputPath) = true
    · rw [if_pos h1]
      have hrk := (strictEqPrim_str_iff rk sOutputPath).mp h1
      rw [hrk] at hh
      exact Or.inr ⟨sOutputPath, .str sOutputMd, rfl, hh, rfl⟩
    · rw [if_neg h1]
      by_cases h2 : strictEqPrim rk (.str sPaths) = true
      · rw [if_pos h2]
        have hrk := (strictEqPrim_str_iff rk sPaths).mp h2
        rw [hrk] at hh
        rw [show jsToString (JsonVal.str (sPaths)) = sPaths from rfl] at hh
        have hgn : objGet acc sPaths = none := by
          rw [objHas_eq_isSome] at hh
          cases hg : objGet acc sPaths with
          | none => rfl
          | some v => rw [hg] at hh; simp at hh
        rw [hgn]
        refine Or.inr ⟨sPaths, _, ?_, hh, rfl⟩
        rfl
      · rw [if_neg h2]
        by_cases h3 : (keys.any (fun k => strictEqPrim rk (.str k)) || isStr rk) = true
        · rw [if_pos h3]
          exact Or.inr ⟨jsToString rk, seed, hseed, hh, rfl⟩
        · rw [if_neg h3]; exact Or.inl rfl

theorem sanReqStep_post (dp keys : List Str) (seed : JsonVal) (acc : JsObj) (rk : JsonVal) :
    objHas (sanReqStep dp keys seed acc rk) (jsToString rk) = true ∨
      reqTrigger keys rk = false := by
  unfold sanReqStep
  dsimp only
  by_cases hhas : objHas acc (jsToString rk) = true
  · rw [if_pos hhas]; exact Or.inl hhas
  · have hh : objHas acc (jsToString rk) = false := by
      revert hhas; cases objHas acc (jsToString rk) <;> simp
    rw [if_neg hhas]
    by_cases h1 : strictEqPrim rk (.str sOutputPath) = true
    · rw [if_pos h1]
      left
      have hrk := (strictEqPrim_str_iff rk sOutputPath).mp h1
      rw [hrk]
      rw [show jsToString (JsonVal.str sOutputPath) = sOutputPath from rfl]
      rw [objHas_objSet]; simp
    · rw [if_neg h1]
      by_cases h2 : strictEqPrim rk (.str sPaths) = true
      · rw [if_pos h2]
        left
        have hrk := (strictEqPrim_str_iff rk sPaths).mp h2
        rw [hrk] at hh ⊢
        rw [show jsToString (JsonVal.str (sPaths)) = sPaths from rfl] at hh
        have hgn : objGet acc sPaths = none := by
          rw [objHas_eq_isSome] at hh
          cases hg : objGet acc sPaths with
          | none => rfl
          | some v => rw [hg] at hh; simp at hh
        rw [hgn]
        rw [show jsToString (JsonVal.str sPaths) = sPaths from rfl]
        rw [objHas_objSet]; simp
      · rw [if_neg h2]
        by_cases h3 : (keys.any (fun k => strictEqPrim rk (.str k)) || isStr rk) = true
        · rw [if_pos h3]
          left
          rw [objHas_objSet]; simp
        · rw [if_neg h3]
          right
          have e1 : strictEqPrim rk (.str sOutputPath) = false := by
            revert h1; cases strictEqPrim rk (.str sOutputPath) <;> simp
          have e2 : strictEqPrim rk (.str sPaths) = false := by
            revert h2; cases strictEqPrim rk (.str sPaths) <;> simp
          have e34 : (keys.any (fun k => strictEqPrim rk (.str k)) || isStr rk) = false := by
            revert h3
            cases (keys.any (fun k => strictEqPrim rk (.str k)) || isStr rk) <;> simp
          unfold reqTrigger
          rw [e1, e2, e34]
          rfl

theorem sanReqStep_id (dp keys : List Str) (seed : JsonVal) (acc : JsObj) (rk : JsonVal)
    (h : objHas acc (jsToString rk) = true ∨ reqTrigger keys rk = false) :
    sanReqStep dp keys seed acc rk = acc := by
  unfold sanReqStep
  dsimp only
  rcases h with h | h
  · rw [if_pos h]
  · unfold reqTrigger at h
    rw [Bool.or_eq_false_iff] at h
    obtain ⟨h1, h234⟩ := h
    rw [Bool.or_eq_false_iff] at h234
    obtain ⟨h2, h34⟩ := h234
    by_cases hhas : objHas acc (jsToString rk) = true
    · rw [if_pos hhas]
    · rw [if_neg hhas, if_neg (by rw [h1]; exact Bool.false_ne_true),
        if_neg (by rw [h2]; exact Bool.false_ne_true),
        if_neg (by rw [h34]; exact Bool.false_ne_true)]

theorem objHas_sanReqStep (dp keys : List Str) (seed : JsonVal) (acc : JsObj)
    (rk : JsonVal) (k : Str) (hseed : stableVal seed = true)
    (h : objHas acc k = true) : objHas (sanReqStep dp keys seed acc rk) k = true := by
  rcases sanReqStep_shape dp keys seed acc rk hseed with he | ⟨k2, v, _, _, he⟩
  · rw [he]; exact h
  · rw [he, objHas_objSet, h]; simp

theorem objGet_sanReqStep (dp keys : List Str) (seed : JsonVal) (acc : JsObj)
    (rk : JsonVal) (k : Str) (w : JsonVal) (hseed : stableVal seed = true)
    (h : objGet acc k = some w) : objGet (sanReqStep dp keys seed acc rk) k = some w := by
  rcases sanReqStep_shape dp keys seed acc rk hseed with he | ⟨k2, v, _, hk2, he⟩
  · rw [he]; exact h
  · rw [he, objGet_objSet]
    have hne : ¬ (k = k2) := by
      intro heq
      rw [heq] at h
      rw [objHas_eq_isSome, h] at hk2
      simp at hk2
    rw [if_neg hne]
    exact h

theorem propStable_sanReqStep (dp keys : List Str) (seed : JsonVal) (acc : JsObj)
    (rk : JsonVal) (pe : Str × JsonVal) (hseed : stableVal seed = true)
    (hst : propStable acc pe) : propStable (sanReqStep dp keys seed acc rk) pe := by
  rcases sanReqStep_shape dp keys seed acc rk hseed with he | ⟨k2, v, hv, _, he⟩
  · rw [he]; exact hst
  · rw [he]; exact propStable_objSet acc pe k2 v hv hst

theorem objHas_sanRequired (dp keys : List Str) (seed : JsonVal) (rs : List JsonVal)
    (args : JsObj) (k : Str) (hseed : stableVal seed = true)
    (h : objHas args k = true) : objHas (sanRequired dp keys seed rs args) k = true := by
  induction rs generalizing args with
  | nil => exact h
  | cons r rest ih =>
    exact ih (sanReqStep dp keys seed args r)
      (objHas_sanReqStep dp keys seed args r k hseed h)

theorem objGet_sanRequired (dp keys : List Str) (seed : JsonVal) (rs : List JsonVal)
    (args : JsObj) (k : Str) (w : JsonVal) (hseed : stableVal seed = true)
    (h : objGet args k = some w) :
    objGet (sanRequired dp keys seed rs args) k = some w := by
  induction rs generalizing args with
  | nil => exact h
  | cons r rest ih =>
    exact ih (sanReqStep dp keys seed args r)
      (objGet_sanReqStep dp keys seed args r k w hseed h)

theorem propStable_sanRequired (dp keys : List Str) (seed : JsonVal) (rs : List JsonVal)
    (args : JsObj) (pe : Str × JsonVal) (hseed : stableVal seed = true)
    (hst : propStable args pe) : propStable (sanRequired dp keys seed rs args) pe := by
  induction rs generalizing args with
  | nil => exact hst
  | cons r rest ih =>
    exact ih (sanReqStep dp keys seed args r)
      (propStable_sanReqStep dp keys seed args r pe hseed hst)

theorem sanRequired_post (dp keys : List Str) (seed : JsonVal) (rs : List JsonVal)
    (args : JsObj) (hseed : stableVal seed = true) :
    ∀ rk ∈ rs, objHas (sanRequired dp keys seed rs args) (jsToString rk) = true ∨
      reqTrigger keys rk = false := by
  induction rs generalizing args with
  | nil => intro rk h; exact absurd h (List.not_mem_nil rk)
  | cons r rest ih =>
    intro rk hmem
    rcases List.mem_cons.mp hmem with h | hmem2
    · subst h
      rcases sanReqStep_post dp keys seed args rk with h | h
      · exact Or.inl (objHas_sanRequired dp keys seed rest
          (sanReqStep dp keys seed args rk) (jsToString rk) hseed h)
      · exact Or.inr h
    · exact ih (sanReqStep dp keys seed args r) rk hmem2

theorem sanRequired_id (dp keys : List Str) (seed : JsonVal) (rs : List JsonVal)
    (args : JsObj)
    (h : ∀ rk ∈ rs, objHas args (jsToString rk) = true ∨ reqTrigger keys rk = false) :
    sanRequired dp keys seed rs args = args :=
  foldl_fix (sanReqStep dp keys seed) rs args
    (fun rk hm => sanReqStep_id dp keys seed args rk (h rk hm))

theorem sanCandidate_cases (keys : List Str) (seed : JsonVal) (args : JsObj) :
    ((∀ c ∈ candidateKeysDef, (inclStr keys c && !(objHas args c)) = false) ∧
      sanCandidate keys seed args = args) ∨
    ∃ k, inclStr keys k = true ∧ objHas args k = false ∧ k ∈ candidateKeysDef ∧
      sanCandidate keys seed args = objSet args k seed := by
  unfold sanCandidate
  cases hf : candidateKeysDef.find? (fun k => inclStr keys k && !(objHas args k)) with
  | none =>
    left
    refine ⟨?_, rfl⟩
    intro c hc
    have := List.find?_eq_none.mp hf c hc
    revert this
    cases (inclStr keys c && !(objHas args c)) <;> simp
  | some k =>
    right
    have hp := List.find?_some hf
    have hmem := List.mem_of_find?_eq_some hf
    rw [Bool.and_eq_true] at hp
    refine ⟨k, hp.1, ?_, hmem, rfl⟩
    have h2 := hp.2
    revert h2
    cases objHas args k <;> simp

theorem sanCandidate_id (keys : List Str) (seed : JsonVal) (args : JsObj)
    (h : ∀ c ∈ candidateKeysDef, (inclStr keys c && !(objHas args c)) = false) :
    sanCandidate keys seed args = args := by
  unfold sanCandidate
  have hf : candidateKeysDef.find? (fun k => inclStr keys k && !(objHas args k)) = none := by
    rw [List.find?_eq_none]
    intro c hc
    rw [h c hc]
    exact Bool.false_ne_true
  rw [hf]

theorem objHas_sanCandidate (keys : List Str) (seed : JsonVal) (args : JsObj) (k : Str)
    (h : objHas args k = true) : objHas (sanCandidate keys seed args) k = true := by
  rcases sanCandidate_cases keys seed args with ⟨_, he⟩ | ⟨k2, _, _, _, he⟩
  · rw [he]; exact h
  · rw [he, objHas_objSet, h]; simp

theorem objGet_sanCandidate (keys : List Str) (seed : JsonVal) (args : JsObj) (k : Str)
    (w : JsonVal) (h : objGet args k = some w) :
    objGet (sanCandidate keys seed args) k = some w := by
  rcases sanCandidate_cases keys seed args with ⟨_, he⟩ | ⟨k2, _, hk2, _, he⟩
  · rw [he]; exact h
  · rw [he, objGet_objSet]
    have hne : ¬ (k = k2) := by
      intro heq
      rw [heq] at h
      rw [objHas_eq_isSome, h] at hk2
      simp at hk2
    rw [if_neg hne]
    exact h

theorem propStable_sanCandidate (keys : List Str) (seed : JsonVal) (args : JsObj)
    (pe : Str × JsonVal) (hseed : stableVal seed = true)
    (hst : propStable args pe) : propStable (sanCandidate keys seed args) pe := by
  rcases sanCandidate_cases keys seed args with ⟨_, he⟩ | ⟨k2, _, _, _, he⟩
  · rw [he]; exact hst
  · rw [he]; exact propStable_objSet args pe k2 seed hseed hst

theorem inputArgsOf_jObj (fs : JsObj) : inputArgsOf (jObj fs) = fs :=
  JsonObj.toFields_ofFields fs

theorem sanitize_unfold_obj (dp : List Str) (tool prompt targs rq : JsonVal)
    (hcond : (truthy tool && isObjLike tool) = true) :
    sanitizeToolArguments dp tool prompt targs rq =
      sanCandidate (keysOf tool) (seedOf prompt rq)
        (sanRequired dp (keysOf tool) (seedOf prompt rq) (requiredOf tool)
          (sanProps (propsEntriesOf tool)
            (sanOutputPath (keysOf tool) (requiredOf tool)
              (sanPaths dp (keysOf tool) (requiredOf tool) (seedOf prompt rq)
                (inputArgsOf targs))))) := by
  unfold sanitizeToolArguments
  rw [hcond]
  rfl

theorem sanitize_unfold_plain (dp : List Str) (tool prompt targs rq : JsonVal)
    (hcond : (truthy tool && isObjLike tool) = false) :
    sanitizeToolArguments dp tool prompt targs rq = inputArgsOf targs := by
  unfold sanitizeToolArguments
  rw [hcond]
  rfl

theorem sanPaths_id (dp keys : List Str) (req : List JsonVal) (seed : JsonVal)
    (args : JsObj) (h1 : inclStr keys sPaths = false)
    (h2 : jsIncludes req (.str sPaths) = false) :
    sanPaths dp keys req seed args = args := by
  unfold sanPaths
  rw [h1, h2]
  rfl

theorem sanOutputPath_post (keys : List Str) (req : List JsonVal) (args : JsObj)
    (hop : (jsIncludes req (.str sOutputPath) || inclStr keys sOutputPath) = true) :
    ∃ s, objGet (sanOutputPath keys req args) sOutputPath = some (.str s) ∧
      jsTrim s ≠ [] := by
  unfold sanOutputPath
  rw [hop, if_pos rfl]
  cases hg : objGet args sOutputPath with
  | none =>
    dsimp only
    refine ⟨sOutputMd, ?_, by decide⟩
    rw [objGet_objSet]; simp
  | some v =>
    cases v with
    | str s =>
      dsimp only
      by_cases ht : jsTrim s ≠ []
      · rw [if_pos ht]; exact ⟨s, hg, ht⟩
      · rw [if_neg ht]
        refine ⟨sOutputMd, ?_, by decide⟩
        rw [objGet_objSet]; simp
    | num n =>
      dsimp only
      refine ⟨sOutputMd, ?_, by decide⟩
      rw [objGet_objSet]; simp
    | bool b =>
      dsimp only
      refine ⟨sOutputMd, ?_, by decide⟩
      rw [objGet_objSet]; simp
    | null =>
      dsimp only
      refine ⟨sOutputMd, ?_, by decide⟩
      rw [objGet_objSet]; simp
    | arr xs =>
      dsimp only
      refine ⟨sOutputMd, ?_, by decide⟩
      rw [objGet_objSet]; simp
    | obj fs =>
      dsimp only
      refine ⟨sOutputMd, ?_, by decide⟩
      rw [objGet_objSet]; simp

theorem sanOutputPath_id (keys : List Str) (req : List JsonVal) (args : JsObj)
    (h : (jsIncludes req (.str sOutputPath) || inclStr keys sOutputPath) = true →
      ∃ s, objGet args sOutputPath = some (.str s) ∧ jsTrim s ≠ []) :
    sanOutputPath keys req args = args := by
  unfold sanOutputPath
  cases hop : (jsIncludes req (.str sOutputPath) || inclStr keys sOutputPath) with
  | false => rfl
  | true =>
    obtain ⟨s, hg, ht⟩ := h hop
    rw [if_pos rfl, hg]
    show (if jsTrim s ≠ [] then args else objSet args (sOutputPath) (.str (sOutputMd))) = args
    rw [if_pos ht]

/-- C8 (counterexample): sanitisation is not idempotent.  For a tool whose
schema has the two candidate properties query and input and no provided
arguments, the first sanitisation seeds only query (the candidate loop
stops at the first absent candidate), and running the sanitiser again on
its own output seeds input as well. -/
theorem c8_counterexample :
    sanitizeToolArguments [] (jObj [(sInputSchema, jObj [(sProperties,
        jObj [(sQuery, jObj []), (sInput, jObj [])])])])
      (.str ("hi".toList)) (jObj []) (.str []) =
      [(sQuery, .str ("hi".toList))] ∧
    sanitizeToolArguments [] (jObj [(sInputSchema, jObj [(sProperties,
        jObj [(sQuery, jObj []), (sInput, jObj [])])])])
      (.str ("hi".toList)) (jObj [(sQuery, .str ("hi".toList))]) (.str []) =
      [(sQuery, .str ("hi".toList)), (sInput, .str ("hi".toList))] ∧
    ([(sQuery, .str ("hi".toList)), (sInput, .str ("hi".toList))] : JsObj) ≠
      [(sQuery, .str ("hi".toList))] := by
  refine ⟨by decide, by decide, by decide⟩

/-- C8 (amended): sanitisation is idempotent for every arguments mapping
provided the prompt and routed query are strings, the schema does not
mention paths (neither as a property key nor in required, ruling out the
path re-normalisation of stage one), no property is array-typed (ruling
out the array re-normalisation of the coercion loop), and at most one of
the candidate keys query/input/text/prompt/q/question/content occurs among
the schema's property keys (ruling out the candidate-seeding
counterexample above). -/
theorem c8_sanitize_idem_restricted (dp : List Str) (tool targs : JsonVal) (p rq : Str)
    (hpk : inclStr (keysOf tool) (sPaths) = false)
    (hpr : jsIncludes (requiredOf tool) (.str (sPaths)) = false)
    (hnoarr : ∀ pe ∈ propsEntriesOf tool,
      ((propTypes pe.2).any (fun t => strictEqJV t (some (.str (sArray))))) = false)
    (hcand : ∀ c1 ∈ candidateKeysDef, ∀ c2 ∈ candidateKeysDef,
      inclStr (keysOf tool) c1 = true → inclStr (keysOf tool) c2 = true → c1 = c2) :
    sanitizeToolArguments dp tool (.str p)
        (jObj (sanitizeToolArguments dp tool (.str p) targs (.str rq))) (.str rq) =
      sanitizeToolArguments dp tool (.str p) targs (.str rq) := by
  cases hcond : (truthy tool && isObjLike tool) with
  | false =>
    rw [sanitize_unfold_plain dp tool (.str p)
        (jObj (sanitizeToolArguments dp tool (.str p) targs (.str rq))) (.str rq) hcond,
      inputArgsOf_jObj]
  | true =>
    set keys := keysOf tool with hkeys
    set req := requiredOf tool with hreq
    set pes := propsEntriesOf tool with hpes
    set seed := seedOf (.str p) (.str rq) with hseedEq
    have hsd : stableVal seed = true := stableVal_seedOf p rq
    set I := inputArgsOf targs with hI
    set A2 := sanOutputPath keys req I with hA2
    set A3 := sanProps pes A2 with hA3
    set A4 := sanRequired dp keys seed req A3 with hA4
    have hSdef : sanitizeToolArguments dp tool (.str p) targs (.str rq) =
        sanCandidate keys seed A4 := by
      rw [sanitize_unfold_obj dp tool (.str p) targs (.str rq) hcond]
      rw [← hkeys, ← hreq, ← hpes, ← hseedEq, ← hI]
      rw [sanPaths_id dp keys req seed I hpk hpr, ← hA2, ← hA3, ← hA4]
    set S := sanCandidate keys seed A4 with hS
    rw [hSdef]
    rw [sanitize_unfold_obj dp tool (.str p) (jObj S) (.str rq) hcond, inputArgsOf_jObj]
    rw [← hkeys, ← hreq, ← hpes, ← hseedEq]
    rw [sanPaths_id dp keys req seed S hpk hpr]
    have hA2post : (jsIncludes req (.str (sOutputPath)) || inclStr keys (sOutputPath)) =
        true → ∃ s, objGet S (sOutputPath) = some (.str s) ∧ jsTrim s ≠ [] := by
      intro hop
      obtain ⟨s, hg, ht⟩ := sanOutputPath_post keys req I hop
      refine ⟨s, ?_, ht⟩
      have h3 := sanProps_preserves_str pes A2 (sOutputPath) s hnoarr hg
      have h4 := objGet_sanRequired dp keys seed req A3 (sOutputPath) (.str s) hsd h3
      exact objGet_sanCandidate keys seed A4 (sOutputPath) (.str s) h4
    have hstS : ∀ pe ∈ pes, propStable S pe := by
      intro pe hm
      have h3 := sanProps_post_stable pes A2 pe hm
      have h4 := propStable_sanRequired dp keys seed req A3 pe hsd h3
      exact propStable_sanCandidate keys seed A4 pe hsd h4
    have hreqS : ∀ rk ∈ req, objHas S (jsToString rk) = true ∨
        reqTrigger keys rk = false := by
      intro rk hm
      rcases sanRequired_post dp keys seed req A3 hsd rk hm with h | h
      · exact Or.inl (objHas_sanCandidate keys seed A4 (jsToString rk) h)
      · exact Or.inr h
    rw [sanOutputPath_id keys req S hA2post,
      sanProps_id pes S hnoarr hstS,
      sanRequired_id dp keys seed req S hreqS]
    rcases sanCandidate_cases keys seed A4 with ⟨hall, hsh⟩ | ⟨k0, hk0incl, _, hk0mem, hsh⟩
    · have hSA4 : S = A4 := hS.trans hsh
      apply sanCandidate_id
      intro c hc
      rw [hSA4]
      exact hall c hc
    · have hSdef2 : S = objSet A4 k0 seed := hS.trans hsh
      apply sanCandidate_id
      intro c hc
      by_cases hck : c = k0
      · have hhc : objHas S c = true := by
          rw [hSdef2, hck, objHas_objSet]; simp
        rw [hhc]; simp
      · cases hic : inclStr keys c with
        | false => rfl
        | true => exact absurd (hcand c hc k0 hk0mem hic hk0incl) hck

/-- C8 (witness): the restricted idempotence at a concrete tool whose only
schema property is a required string-typed query. -/
theorem c8_idem_witness :
    sanitizeToolArguments [] (jObj [(sInputSchema, jObj [(sProperties,
        jObj [(sQuery, jObj [(sType, .str (sString))])]),
        (sRequired, jArr [.str (sQuery)])])])
      (.str ("hi".toList))
      (jObj (sanitizeToolArguments [] (jObj [(sInputSchema, jObj [(sProperties,
          jObj [(sQuery, jObj [(sType, .str (sString))])]),
          (sRequired, jArr [.str (sQuery)])])])
        (.str ("hi".toList)) (jObj []) (.str ("go".toList))))
      (.str ("go".toList)) =
    sanitizeToolArguments [] (jObj [(sInputSchema, jObj [(sProperties,
        jObj [(sQuery, jObj [(sType, .str (sString))])]),
        (sRequired, jArr [.str (sQuery)])])])
      (.str ("hi".toList)) (jObj []) (.str ("go".toList)) :=
  c8_sanitize_idem_restricted [] (jObj [(sInputSchema, jObj [(sProperties,
      jObj [(sQuery, jObj [(sType, .str (sString))])]),
      (sRequired, jArr [.str (sQuery)])])])
    (jObj []) ("hi".toList) ("go".toList)
    (by decide) (by decide) (by decide) (by decide)

/-! ## Claim C2 — non-empty paths for path-requiring tools -/

/-- A concrete tool whose schema requires a paths array. -/
def c2tool : JsonVal :=
  jObj [(sInputSchema, jObj [(sProperties,
    jObj [(sPaths, jObj [(sType, .str (sArray))])]),
    (sRequired, jArr [.str (sPaths)])])]

/-- C2: for every tool whose inputSchema.required contains paths, the
path-required preflight run on the sanitised arguments either returns the
requiresInput/missing=paths response without issuing the primary
tools/call, or issues the primary tools/call with arguments whose paths
property is a non-empty array. -/
theorem c2_required_paths (dp : List Str) (tool prompt targs rq : JsonVal)
    (tpd : JSVal) (denv : DiscoveryEnv)
    (hreq : jsIncludes (selRequiredOf tool) (.str (sPaths)) = true) :
    (∃ a, mcpPathPreflight dp tool tpd denv
        (sanitizeToolArguments dp tool prompt targs rq) =
      PreflightOutcome.requiresPathInput a) ∨
    (∃ a xs, mcpPathPreflight dp tool tpd denv
        (sanitizeToolArguments dp tool prompt targs rq) =
      PreflightOutcome.callTool a ∧
      objGet a (sPaths) = some (.arr xs) ∧ 0 < xs.toList.length) := by
  set args := sanitizeToolArguments dp tool prompt targs rq with hargs
  set A2 := preflightArgs2 dp tool tpd denv args with hA2
  have hunf : mcpPathPreflight dp tool tpd denv args =
      (if jsIncludes (selRequiredOf tool) (.str (sPaths)) &&
          ((match objGet A2 (sPaths) with
            | some (.arr xs) => xs.toList.length
            | _ => 0) = 0) then
        PreflightOutcome.requiresPathInput A2
      else PreflightOutcome.callTool A2) := rfl
  rw [hreq] at hunf
  cases hg : objGet A2 (sPaths) with
  | none =>
    rw [hg] at hunf
    simp only [Bool.true_and, decide_eq_true_eq, if_pos rfl] at hunf
    exact Or.inl ⟨A2, hunf⟩
  | some v =>
    cases v with
    | arr xs =>
      rw [hg] at hunf
      by_cases hlen : xs.toList.length = 0
      · simp only [hlen, Bool.true_and, decide_eq_true_eq, if_pos rfl] at hunf
        exact Or.inl ⟨A2, hunf⟩
      · simp only [Bool.true_and, decide_eq_true_eq, if_neg hlen] at hunf
        exact Or.inr ⟨A2, xs, hunf, hg, Nat.pos_of_ne_zero hlen⟩
    | str s =>
      rw [hg] at hunf
      simp only [Bool.true_and, decide_eq_true_eq, if_pos rfl] at hunf
      exact Or.inl ⟨A2, hunf⟩
    | num n =>
      rw [hg] at hunf
      simp only [Bool.true_and, decide_eq_true_eq, if_pos rfl] at hunf
      exact Or.inl ⟨A2, hunf⟩
    | bool b =>
      rw [hg] at hunf
      simp only [Bool.true_and, decide_eq_true_eq, if_pos rfl] at hunf
      exact Or.inl ⟨A2, hunf⟩
    | null =>
      rw [hg] at hunf
      simp only [Bool.true_and, decide_eq_true_eq, if_pos rfl] at hunf
      exact Or.inl ⟨A2, hunf⟩
    | obj fs =>
      rw [hg] at hunf
      simp only [Bool.true_and, decide_eq_true_eq, if_pos rfl] at hunf
      exact Or.inl ⟨A2, hunf⟩

/-- C2 (witness): the preflight disjunction at a concrete path-requiring
tool, empty provided arguments and no discovery environment. -/
theorem c2_witness :
    (∃ a, mcpPathPreflight ["notes/".toList] c2tool none ⟨false, 200, false, []⟩
        (sanitizeToolArguments ["notes/".toList] c2tool (.str ("hi".toList))
          (jObj []) (.str [])) =
      PreflightOutcome.requiresPathInput a) ∨
    (∃ a xs, mcpPathPreflight ["notes/".toList] c2tool none ⟨false, 200, false, []⟩
        (sanitizeToolArguments ["notes/".toList] c2tool (.str ("hi".toList))
          (jObj []) (.str [])) =
      PreflightOutcome.callTool a ∧
      objGet a (sPaths) = some (.arr xs) ∧ 0 < xs.toList.length) :=
  c2_required_paths ["notes/".toList] c2tool (.str ("hi".toList)) (jObj [])
    (.str []) none ⟨false, 200, false, []⟩ (by decide)

/-! ## Claim C5 — step order, skip recording and step_executed gating -/

theorem append_ne_nil_left {α : Type} (a b : List α) (h : a ≠ []) : a ++ b ≠ [] := by
  cases a with
  | nil => exact absurd rfl h
  | cons x t => simp

/-- The run/reason dichotomy of one decision-valued if. -/
theorem decision_if_spec (C : Prop) [Decidable C] (R : Str) (hR : R ≠ []) :
    (if C then ({ run := true, reason := [] } : Decision)
      else { run := false, reason := R }).run = true ∨
    (if C then ({ run := true, reason := [] } : Decision)
      else { run := false, reason := R }).reason ≠ [] := by
  by_cases h : C
  · rw [if_pos h]; exact Or.inl rfl
  · rw [if_neg h]; exact Or.inr hR

/-- A negative decision of shouldRunWorkflowStep always carries a
non-empty reason. -/
theorem shouldRun_reason_spec (whenV : JSVal) (sp : Option JsonVal)
    (m : List (Str × StepResult)) :
    (shouldRunWorkflowStep whenV sp m).run = true ∨
    (shouldRunWorkflowStep whenV sp m).reason ≠ [] := by
  unfold shouldRunWorkflowStep
  cases whenV with
  | none => exact Or.inl rfl
  | some w =>
    dsimp only
    split
    · exact Or.inl rfl
    · split
      · exact decision_if_spec _ _
          (append_ne_nil_left _ _ (append_ne_nil_left _ _
            (append_ne_nil_left _ _ (append_ne_nil_left _ _ (by decide)))))
      · split
        · exact decision_if_spec _ _ (append_ne_nil_left _ _ (by decide))
        · exact Or.inl rfl

theorem shouldRun_false_reason (whenV : JSVal) (sp : Option JsonVal)
    (m : List (Str × StepResult))
    (h : (shouldRunWorkflowStep whenV sp m).run = false) :
    (shouldRunWorkflowStep whenV sp m).reason ≠ [] := by
  rcases shouldRun_reason_spec whenV sp m with h2 | h2
  · rw [h] at h2; exact absurd h2 Bool.false_ne_true
  · exact h2

/-- A step with a tool whose when condition fails only records the skip
entry: the results map, the sync payload, the readiness and the active
response are untouched. -/
theorem runWorkflowStepIter_skip (jp : Str → Option JsonVal)
    (env : Nat → AgentResponse) (s : JsonVal) (ctx : WfCtx)
    (htool : stepToolOf s ≠ [])
    (hdec : (shouldRunWorkflowStep (getField s (sWhen)) ctx.syncPayload
      ctx.stepResults).run = false) :
    runWorkflowStepIter jp env s ctx =
      { ctx with entries := ctx.entries ++
        [{ id := stepIdAt s ctx.entries.length, tool := some (stepToolOf s),
           executed := false, skipped := true,
           reason := some (shouldRunWorkflowStep (getField s (sWhen))
             ctx.syncPayload ctx.stepResults).reason,
           status := none }] } := by
  unfold runWorkflowStepIter
  dsimp only
  have h2 : (!(shouldRunWorkflowStep (getField s (sWhen)) ctx.syncPayload
      ctx.stepResults).run) = true := by rw [hdec]; rfl
  rw [if_neg htool, if_pos h2]

theorem runWorkflowLoop_append (jp : Str → Option JsonVal)
    (env : Nat → AgentResponse) (l1 l2 : List JsonVal) (ctx : WfCtx) :
    runWorkflowLoop jp env (l1 ++ l2) ctx =
      runWorkflowLoop jp env l2 (runWorkflowLoop jp env l1 ctx) := by
  induction l1 generalizing ctx with
  | nil => rfl
  | cons s t ih => exact ih (runWorkflowStepIter jp env s ctx)

theorem runWorkflowStepIter_entries_length (jp : Str → Option JsonVal)
    (env : Nat → AgentResponse) (s : JsonVal) (ctx : WfCtx) :
    (runWorkflowStepIter jp env s ctx).entries.length = ctx.entries.length + 1 := by
  unfold runWorkflowStepIter
  dsimp only
  split
  · simp
  · split
    · simp
    · simp

theorem runWorkflowLoop_entries_length (jp : Str → Option JsonVal)
    (env : Nat → AgentResponse) (steps : List JsonVal) (ctx : WfCtx) :
    (runWorkflowLoop jp env steps ctx).entries.length =
      ctx.entries.length + steps.length := by
  induction steps generalizing ctx with
  | nil => rfl
  | cons s t ih =>
    show (runWorkflowLoop jp env t (runWorkflowStepIter jp env s ctx)).entries.length = _
    rw [ih, runWorkflowStepIter_entries_length]
    simp [List.length_cons]
    omega

/-- The stepResults invariant of the runner: every record in the results
map belongs to an executed entry (records are only ever set with executed
true, together with an executed entry of the same id). -/
def WfInv (ctx : WfCtx) : Prop :=
  ∀ sid r, assocGet ctx.stepResults sid = some r →
    ∃ e ∈ ctx.entries, e.id = sid ∧ e.executed = true

theorem wfInv_iter (jp : Str → Option JsonVal) (env : Nat → AgentResponse)
    (s : JsonVal) (ctx : WfCtx) (h : WfInv ctx) :
    WfInv (runWorkflowStepIter jp env s ctx) := by
  unfold runWorkflowStepIter
  dsimp only
  split
  · intro sid r hget
    obtain ⟨e, he, hid, hex⟩ := h sid r hget
    exact ⟨e, List.mem_append.mpr (Or.inl he), hid, hex⟩
  · split
    · intro sid r hget
      obtain ⟨e, he, hid, hex⟩ := h sid r hget
      exact ⟨e, List.mem_append.mpr (Or.inl he), hid, hex⟩
    · intro sid r hget
      dsimp only at hget
      rw [assocGet_assocSet] at hget
      by_cases hs : sid = stepIdAt s ctx.entries.length
      · let entry : StepEntry :=
          { id := stepIdAt s ctx.entries.length, tool := some (stepToolOf s),
            executed := true, skipped := false, reason := none,
            status := some (jsOrV (env ctx.execCount).mcpStatus (.num 200)) }
        refine ⟨entry, ?_, hs.symm, rfl⟩
        exact List.mem_append.mpr (Or.inr (List.mem_singleton.mpr rfl))
      · rw [if_neg hs] at hget
        obtain ⟨e, he, hid, hex⟩ := h sid r hget
        exact ⟨e, List.mem_append.mpr (Or.inl he), hid, hex⟩

theorem wfInv_loop (jp : Str → Option JsonVal) (env : Nat → AgentResponse)
    (steps : List JsonVal) (ctx : WfCtx) (h : WfInv ctx) :
    WfInv (runWorkflowLoop jp env steps ctx) := by
  induction steps generalizing ctx with
  | nil => exact h
  | cons s t ih => exact ih (runWorkflowStepIter jp env s ctx) (wfInv_iter jp env s ctx h)

theorem wfInv_initial (jp : Str → Option JsonVal) (r0 : AgentResponse) :
    WfInv (initialWfCtx jp r0) := by
  intro sid r hget
  simp [initialWfCtx, assocGet] at hget

/-- A step_executed condition over a results map without a record for the
step id evaluates to run = false. -/
theorem stepExecuted_gate (sp : Option JsonVal) (m : List (Str × StepResult))
    (w : JsonVal) (sid : Str)
    (ht : truthy w = true) (ho : isObjLike w = true)
    (hty : getField w (sType) = some (.str (sStepExecuted)))
    (hsid : getField w (sStepId) = some (.str sid))
    (hnone : assocGet m sid = none) :
    (shouldRunWorkflowStep (some w) sp m).run = false := by
  unfold shouldRunWorkflowStep
  dsimp only
  have h1 : (!(truthy w && isObjLike w)) = false := by rw [ht, ho]; rfl
  rw [if_neg (by rw [h1]; exact Bool.false_ne_true)]
  rw [hty]
  rw [if_neg (by decide :
    ¬ strictEqJV (some (JsonVal.str sStepExecuted)) (some (JsonVal.str sSyncFieldEquals)) = true)]
  rw [if_pos (by decide :
    strictEqJV (some (JsonVal.str sStepExecuted)) (some (JsonVal.str sStepExecuted)) = true)]
  have hstep : (match getField w (sStepId) with
      | some (JsonVal.str s) => s
      | _ => []) = sid := by rw [hsid]
  rw [hstep, hnone]
  have hx : (decide (sid ≠ []) && match (none : Option StepResult) with
      | some r => r.executed
      | none => false) = false := by
    cases (decide (sid ≠ [])) <;> rfl
  rw [if_neg (by rw [hx]; exact Bool.false_ne_true)]

/-- C5: the runner processes workflow steps in declaration order (the loop
over pre ++ s :: post runs pre, then s, then post, appending exactly one
entry per step); a step with a tool whose when condition evaluates false
is recorded as a skipped, non-executed entry carrying a non-empty reason,
with the results map, sync payload and active response untouched; and a
step id for which no executed entry exists has no stepResults record, so
any later step_executed condition naming it evaluates to run = false. -/
theorem c5_workflow_skip_gating (jp : Str → Option JsonVal)
    (env : Nat → AgentResponse) (r0 : AgentResponse)
    (pre post : List JsonVal) (s : JsonVal)
    (htool : stepToolOf s ≠ [])
    (hdec : (shouldRunWorkflowStep (getField s (sWhen))
        (runWorkflowLoop jp env pre (initialWfCtx jp r0)).syncPayload
        (runWorkflowLoop jp env pre (initialWfCtx jp r0)).stepResults).run = false) :
    runWorkflowLoop jp env (pre ++ s :: post) (initialWfCtx jp r0) =
      runWorkflowLoop jp env post
        { runWorkflowLoop jp env pre (initialWfCtx jp r0) with
          entries := (runWorkflowLoop jp env pre (initialWfCtx jp r0)).entries ++
            [{ id := stepIdAt s
                 (runWorkflowLoop jp env pre (initialWfCtx jp r0)).entries.length,
               tool := some (stepToolOf s), executed := false, skipped := true,
               reason := some (shouldRunWorkflowStep (getField s (sWhen))
                 (runWorkflowLoop jp env pre (initialWfCtx jp r0)).syncPayload
                 (runWorkflowLoop jp env pre (initialWfCtx jp r0)).stepResults).reason,
               status := none }] } ∧
    (shouldRunWorkflowStep (getField s (sWhen))
        (runWorkflowLoop jp env pre (initialWfCtx jp r0)).syncPayload
        (runWorkflowLoop jp env pre (initialWfCtx jp r0)).stepResults).reason ≠ [] ∧
    (runWorkflowLoop jp env (pre ++ s :: post) (initialWfCtx jp r0)).entries.length =
      (pre ++ s :: post).length ∧
    (∀ sid : Str, ∀ w : JsonVal, ∀ sp : Option JsonVal,
      (∀ e ∈ (runWorkflowLoop jp env (pre ++ s :: post) (initialWfCtx jp r0)).entries,
        e.id = sid → e.executed = false) →
      truthy w = true → isObjLike w = true →
      getField w (sType) = some (.str (sStepExecuted)) →
      getField w (sStepId) = some (.str sid) →
      (shouldRunWorkflowStep (some w) sp
        (runWorkflowLoop jp env (pre ++ s :: post) (initialWfCtx jp r0)).stepResults).run =
        false) := by
  refine ⟨?_, shouldRun_false_reason _ _ _ hdec, ?_, ?_⟩
  · rw [runWorkflowLoop_append]
    show runWorkflowLoop jp env post
      (runWorkflowStepIter jp env s (runWorkflowLoop jp env pre (initialWfCtx jp r0))) = _
    rw [runWorkflowStepIter_skip jp env s _ htool hdec]
  · rw [runWorkflowLoop_entries_length]
    have : (initialWfCtx jp r0).entries.length = 0 := rfl
    rw [this]
    omega
  · intro sid w sp hnone ht ho hty hsid
    apply stepExecuted_gate sp _ w sid ht ho hty hsid
    cases hg : assocGet
        (runWorkflowLoop jp env (pre ++ s :: post) (initialWfCtx jp r0)).stepResults sid with
    | none => rfl
    | some r =>
      obtain ⟨e, he, hid, hex⟩ :=
        wfInv_loop jp env (pre ++ s :: post) (initialWfCtx jp r0)
          (wfInv_initial jp r0) sid r hg
      rw [hnone e he hid] at hex
      exact absurd hex Bool.false_ne_true

/-- A JSON.parse stub that always fails, for the concrete runs below. -/
def c5jp : Str → Option JsonVal := fun _ => none

/-- An agent response with no fields set. -/
def c5resp : AgentResponse := ⟨none, none, none, none, none⟩

/-- An execution environment returning the empty response. -/
def c5env : Nat → AgentResponse := fun _ => c5resp

/-- A step_executed condition naming the (never executed) step s0. -/
def c5when : JsonVal :=
  jObj [(sType, .str (sStepExecuted)), (sStepId, .str ("s0".toList))]

/-- A sync step gated on the unexecuted step s0. -/
def c5step : JsonVal :=
  jObj [(sId, .str ("s1".toList)), (sTool, .str ("sync".toList)), (sWhen, c5when)]

/-- A step_executed condition naming the skipped step s1. -/
def c5when2 : JsonVal :=
  jObj [(sType, .str (sStepExecuted)), (sStepId, .str ("s1".toList))]

/-- C5 (witness): at a concrete one-step workflow whose single step is
gated on an unexecuted step, the skip reason is non-empty, exactly one
entry is recorded, and a later step_executed condition naming the skipped
step evaluates to run = false. -/
theorem c5_witness :
    (shouldRunWorkflowStep (getField c5step (sWhen))
        (runWorkflowLoop c5jp c5env [] (initialWfCtx c5jp c5resp)).syncPayload
        (runWorkflowLoop c5jp c5env [] (initialWfCtx c5jp c5resp)).stepResults).reason ≠ [] ∧
    (runWorkflowLoop c5jp c5env ([] ++ c5step :: []) (initialWfCtx c5jp c5resp)).entries.length =
      ([] ++ c5step :: ([] : List JsonVal)).length ∧
    (shouldRunWorkflowStep (some c5when2) none
        (runWorkflowLoop c5jp c5env ([] ++ c5step :: [])
          (initialWfCtx c5jp c5resp)).stepResults).run = false :=
  ⟨(c5_workflow_skip_gating c5jp c5env c5resp [] [] c5step (by decide) (by decide)).2.1,
   (c5_workflow_skip_gating c5jp c5env c5resp [] [] c5step (by decide) (by decide)).2.2.1,
   (c5_workflow_skip_gating c5jp c5env c5resp [] [] c5step (by decide) (by decide)).2.2.2
     ("s1".toList) c5when2 none (by decide) (by decide) (by decide) (by decide) (by decide)⟩

/-! ## Claim C6 — github_pr termination rule -/

/-- C6: for a truthy workflow of type github_pr with a non-empty steps
array, runWorkflowSteps applies the termination rule after the last step:
when no step whose id contains create_pr has an executed record, the
workflow state has proceeded = false and a non-empty workspace-state
reason, and the response carries requiresInput = true, missing =
workspace_state and the reason prefixed (with two newlines and a trim) to
the loop's final answer text; when such a step executed, proceeded = true
and the response is the loop's active response unmodified. -/
theorem c6_github_pr_termination (jp : Str → Option JsonVal)
    (env : Nat → AgentResponse) (workflow : JSVal) (r0 : AgentResponse)
    (steps : List JsonVal) (fin : WfCtx) (wsR : Str)
    (hw : jsvTruthy workflow = true)
    (hsteps : getFieldOpt workflow (sSteps) = some (jArr steps))
    (hne : steps ≠ [])
    (hty : strictEqJV (getFieldOpt workflow (sType)) (some (.str (sGithubPr))) = true)
    (hfin : fin = runWorkflowLoop jp env steps (initialWfCtx jp r0))
    (hwsR : wsR = if fin.readiness.reason ≠ [] then fin.readiness.reason
      else msgCreatePrNotRun) :
    (wfCreated steps fin = false →
      (runWorkflowSteps jp env workflow r0).workflowState.proceeded = false ∧
      (runWorkflowSteps jp env workflow r0).workflowState.reason = wsR ∧
      wsR ≠ [] ∧
      (runWorkflowSteps jp env workflow r0).response.requiresInput = some (.bool true) ∧
      (runWorkflowSteps jp env workflow r0).response.missing =
        some (.str (sWorkspaceState)) ∧
      (runWorkflowSteps jp env workflow r0).response.answer =
        some (.str (jsTrim (wsR ++ sTwoNewlines ++
          templateAnswerText fin.active.answer))) ∧
      (runWorkflowSteps jp env workflow r0).workflowState.steps = fin.entries) ∧
    (wfCreated steps fin = true →
      (runWorkflowSteps jp env workflow r0).workflowState.proceeded = true ∧
      (runWorkflowSteps jp env workflow r0).response = fin.active ∧
      (runWorkflowSteps jp env workflow r0).workflowState.steps = fin.entries) := by
  subst hfin
  subst hwsR
  have hw2 : (!(jsvTruthy workflow)) = false := by rw [hw]; rfl
  constructor
  · intro hc
    have hnc : (!(wfCreated steps
        (runWorkflowLoop jp env steps (initialWfCtx jp r0)))) = true := by
      rw [hc]; rfl
    unfold runWorkflowSteps
    dsimp only
    rw [hsteps]
    dsimp only [jArr]
    rw [JsonArr.toList_ofList]
    rw [if_neg (by rw [hw2]; exact Bool.false_ne_true)]
    rw [if_neg hne]
    rw [if_pos hty]
    rw [if_pos hnc]
    refine ⟨rfl, rfl, ?_, rfl, rfl, rfl, rfl⟩
    by_cases hrr : (runWorkflowLoop jp env steps (initialWfCtx jp r0)).readiness.reason ≠ []
    · rw [if_pos hrr]; exact hrr
    · rw [if_neg hrr]; decide
  · intro hc
    have hnc : (!(wfCreated steps
        (runWorkflowLoop jp env steps (initialWfCtx jp r0)))) = false := by
      rw [hc]; rfl
    unfold runWorkflowSteps
    dsimp only
    rw [hsteps]
    dsimp only [jArr]
    rw [JsonArr.toList_ofList]
    rw [if_neg (by rw [hw2]; exact Bool.false_ne_true)]
    rw [if_neg hne]
    rw [if_pos hty]
    rw [if_neg (by rw [hnc]; exact Bool.false_ne_true)]
    exact ⟨rfl, rfl, rfl⟩

/-- A create_pr step gated on the unexecuted step s0 (so it is skipped). -/
def c6step : JsonVal :=
  jObj [(sId, .str ("create_pr".toList)), (sTool, .str ("gh".toList)), (sWhen, c5when)]

/-- A github_pr workflow whose single create_pr step never executes. -/
def c6workflow : JSVal :=
  some (jObj [(sType, .str (sGithubPr)), (sSteps, jArr [c6step])])

/-- C6 (witness): at the concrete github_pr workflow whose create_pr step
is skipped, the returned state has proceeded false and the response asks
for the workspace state. -/
theorem c6_witness :
    (runWorkflowSteps c5jp c5env c6workflow c5resp).workflowState.proceeded = false ∧
    (runWorkflowSteps c5jp c5env c6workflow c5resp).response.requiresInput =
      some (.bool true) ∧
    (runWorkflowSteps c5jp c5env c6workflow c5resp).response.missing =
      some (.str (sWorkspaceState)) :=
  ⟨((c6_github_pr_termination c5jp c5env c6workflow c5resp [c6step]
      (runWorkflowLoop c5jp c5env [c6step] (initialWfCtx c5jp c5resp)) _
      (by decide) (by decide) (by decide) (by decide) rfl rfl).1 (by decide)).1,
   ((c6_github_pr_termination c5jp c5env c6workflow c5resp [c6step]
      (runWorkflowLoop c5jp c5env [c6step] (initialWfCtx c5jp c5resp)) _
      (by decide) (by decide) (by decide) (by decide) rfl rfl).1 (by decide)).2.2.2.1,
   ((c6_github_pr_termination c5jp c5env c6workflow c5resp [c6step]
      (runWorkflowLoop c5jp c5env [c6step] (initialWfCtx c5jp c5resp)) _
      (by decide) (by decide) (by decide) (by decide) rfl rfl).1 (by decide)).2.2.2.2.1⟩
